import Mathlib

/-! # merge_corrections: aggregation and correction of event-weight sums

A shallow embedding of `src/merge_corrections.cxx`.

Conventions of the embedding

* `double`/`float` values are exact rationals (`ℚ`): sums, products and quotients are the
  exact ones. A quotient whose divisor is zero is Lean's `x / 0 = 0`; the C++ program
  produces an infinity or a NaN there, so a statement about such a quotient says only that the
  field is that quotient, or that it is not the literal `1`.
* `std::vector<T>` is `List T`, `std::string` is `List Char`.
* `size_t` is `Nat` reduced modulo `2 ^ 64`, `int` is `Int` within `[-2 ^ 31, 2 ^ 31)`.
* A C++ exception that nothing catches, and an access outside a vector through `operator[]`,
  end the run: the operation returns `Except.error` with the corresponding `Fault`.
-/

namespace MergeCorrections

/-- The ways in which an operation of the program ends without a result. -/
inductive Fault where
  /-- The exception `std::out_of_range` of `vector::at`, `string::substr` and `std::stoi`. -/
  | out_of_range
  /-- The exception `std::invalid_argument` of `std::stoi` when no digit can be read. -/
  | invalid_argument
  /-- An `operator[]` access outside the bounds of a vector (no defined behaviour). -/
  | index_past_end
  /-- The run stops with "No entries in input files!" (`return 1` of `main`). -/
  | no_entries
  /-- The run stops with "Too few arguments!" (`return 1` of `main`). -/
  | too_few_arguments
  deriving DecidableEq, Repr

deriving instance DecidableEq for Except

/-- Modelled from the spec: the class `corrections_tree` (corrections_tree.hpp) is not among the
sources. `WeightRecord` is its input side, the branches that `GetEntry(i)` loads and that the
program reads through `wgt_sums.neff()`, `wgt_sums.sys_lep()`, and so on. -/
structure WeightRecord where
  neff : ℚ
  nent : ℚ
  nent_zlep : ℚ
  tot_weight_l0 : ℚ
  tot_weight_l1 : ℚ
  weight : ℚ
  w_lep : ℚ
  w_fs_lep : ℚ
  w_bhig : ℚ
  w_btag : ℚ
  w_bhig_df : ℚ
  w_btag_df : ℚ
  w_isr : ℚ
  w_pu : ℚ
  sys_lep : List ℚ
  sys_fs_lep : List ℚ
  sys_bchig : List ℚ
  sys_udsghig : List ℚ
  sys_fs_bchig : List ℚ
  sys_fs_udsghig : List ℚ
  sys_isr : List ℚ
  sys_pu : List ℚ
  deriving DecidableEq

/-- Modelled from the spec: the class `corrections_tree` (corrections_tree.hpp) is not among the
sources. This structure is its output side, the branches written through `corr.out_*()`:
the accumulator of the run. -/
structure corrections_tree where
  out_weight : ℚ
  out_w_lumi : ℚ
  out_w_lep : ℚ
  out_w_fs_lep : ℚ
  out_w_btag : ℚ
  out_w_btag_df : ℚ
  out_w_bhig : ℚ
  out_w_bhig_df : ℚ
  out_w_isr : ℚ
  out_w_pu : ℚ
  out_w_prefire : ℚ
  out_neff : ℚ
  out_nent : ℚ
  out_nent_zlep : ℚ
  out_tot_weight_l0 : ℚ
  out_tot_weight_l1 : ℚ
  out_sys_lep : List ℚ
  out_sys_fs_lep : List ℚ
  out_sys_bchig : List ℚ
  out_sys_udsghig : List ℚ
  out_sys_fs_bchig : List ℚ
  out_sys_fs_udsghig : List ℚ
  out_sys_isr : List ℚ
  out_sys_pu : List ℚ
  deriving DecidableEq

/-! ## Aggregator -/

/-- Template `CopySize(wgt_sums, corr)`: `corr` becomes a vector of `wgt_sums.size()` zeros. -/
def CopySize (wgt_sums : List ℚ) : List ℚ :=
  List.replicate wgt_sums.length 0

/-- Template `VecAdd(wgt_sums, corr)`: `corr.at(i) += wgt_sums.at(i)` for `i` from `0` to
`wgt_sums.size()`. The loop runs over the elements of `wgt_sums`; `corr.at(i)` throws
`std::out_of_range` as soon as `corr` has no element `i`. -/
def VecAdd : List ℚ → List ℚ → Except Fault (List ℚ)
  | [], corr => .ok corr
  | _ :: _, [] => .error .out_of_range
  | w :: ws, c :: cs =>
    match VecAdd ws cs with
    | .ok t => .ok ((c + w) :: t)
    | .error e => .error e

/-- Function `Initialize(wgt_sums, corr)`: zero the sums, size the vectors after the record just read.
`out_w_prefire` is not assigned. -/
def Initialize (wgt_sums : WeightRecord) (corr : corrections_tree) : corrections_tree :=
  { corr with
    out_weight := 0
    out_w_lumi := 0
    out_w_lep := 0
    out_w_fs_lep := 0
    out_w_btag := 0
    out_w_btag_df := 0
    out_w_bhig := 0
    out_w_bhig_df := 0
    out_w_isr := 0
    out_w_pu := 0
    out_neff := 0
    out_nent := 0
    out_nent_zlep := 0
    out_tot_weight_l0 := 0
    out_tot_weight_l1 := 0
    out_sys_lep := CopySize wgt_sums.sys_lep
    out_sys_fs_lep := CopySize wgt_sums.sys_fs_lep
    out_sys_bchig := CopySize wgt_sums.sys_bchig
    out_sys_udsghig := CopySize wgt_sums.sys_udsghig
    out_sys_fs_bchig := CopySize wgt_sums.sys_fs_bchig
    out_sys_fs_udsghig := CopySize wgt_sums.sys_fs_udsghig
    out_sys_isr := CopySize wgt_sums.sys_isr
    out_sys_pu := CopySize wgt_sums.sys_pu }

/-- Function `AddEntry(wgt_sums, corr)`: add the record to the scalar sums and to the eight
vector sums, the vectors in the order of the source; the first `VecAdd` that throws ends the
run, whatever was added before it. -/
def AddEntry (wgt_sums : WeightRecord) (corr : corrections_tree) :
    Except Fault corrections_tree := do
  let sys_lep ← VecAdd wgt_sums.sys_lep corr.out_sys_lep
  let sys_fs_lep ← VecAdd wgt_sums.sys_fs_lep corr.out_sys_fs_lep
  let sys_bchig ← VecAdd wgt_sums.sys_bchig corr.out_sys_bchig
  let sys_udsghig ← VecAdd wgt_sums.sys_udsghig corr.out_sys_udsghig
  let sys_fs_bchig ← VecAdd wgt_sums.sys_fs_bchig corr.out_sys_fs_bchig
  let sys_fs_udsghig ← VecAdd wgt_sums.sys_fs_udsghig corr.out_sys_fs_udsghig
  let sys_isr ← VecAdd wgt_sums.sys_isr corr.out_sys_isr
  let sys_pu ← VecAdd wgt_sums.sys_pu corr.out_sys_pu
  pure { corr with
    out_neff := corr.out_neff + wgt_sums.neff
    out_nent := corr.out_nent + wgt_sums.nent
    out_nent_zlep := corr.out_nent_zlep + wgt_sums.nent_zlep
    out_tot_weight_l0 := corr.out_tot_weight_l0 + wgt_sums.tot_weight_l0
    out_tot_weight_l1 := corr.out_tot_weight_l1 + wgt_sums.tot_weight_l1
    out_weight := corr.out_weight + wgt_sums.weight
    out_w_lep := corr.out_w_lep + wgt_sums.w_lep
    out_w_fs_lep := corr.out_w_fs_lep + wgt_sums.w_fs_lep
    out_w_bhig := corr.out_w_bhig + wgt_sums.w_bhig
    out_w_btag := corr.out_w_btag + wgt_sums.w_btag
    out_w_bhig_df := corr.out_w_bhig_df + wgt_sums.w_bhig_df
    out_w_btag_df := corr.out_w_btag_df + wgt_sums.w_btag_df
    out_w_isr := corr.out_w_isr + wgt_sums.w_isr
    out_w_pu := corr.out_w_pu + wgt_sums.w_pu
    out_sys_lep := sys_lep
    out_sys_fs_lep := sys_fs_lep
    out_sys_bchig := sys_bchig
    out_sys_udsghig := sys_udsghig
    out_sys_fs_bchig := sys_fs_bchig
    out_sys_fs_udsghig := sys_fs_udsghig
    out_sys_isr := sys_isr
    out_sys_pu := sys_pu }

/-- The entry loop of `main` (lines 74-77): `AddEntry` on entry `0`, `1`, ... in turn. -/
def addEntries (corr : corrections_tree) : List WeightRecord → Except Fault corrections_tree
  | [] => .ok corr
  | r :: rs =>
    match AddEntry r corr with
    | .ok c => addEntries c rs
    | .error e => .error e

/-- Lines 66-77 of `main`: the entry-count check, `Initialize` on entry `0`, then the entry
loop over every entry, entry `0` included. `entries` is the chain of the input files. -/
def aggregate (corr : corrections_tree) (entries : List WeightRecord) :
    Except Fault corrections_tree :=
  match entries with
  | [] => .error .no_entries
  | r0 :: _ => addEntries (Initialize r0 corr) entries

/-! ## Strings -/

/-- The value `std::string::npos`, which is `size_t(-1)`. -/
def npos : Nat := 2 ^ 64 - 1

/-- Scan for `s.find(pat, pos)`: `s` is the text from position `i` on; the result is the first
position at which `pat` occurs, `npos` when there is none. -/
def findFrom (pat : List Char) : List Char → Nat → Nat
  | [], i => if pat.isPrefixOf [] then i else npos
  | c :: t, i => if pat.isPrefixOf (c :: t) then i else findFrom pat t (i + 1)

/-- Member `s.find(pat, pos)` of `std::string`. -/
def find (s pat : List Char) (pos : Nat) : Nat :=
  if pos ≤ s.length then findFrom pat (s.drop pos) pos else npos

/-- Scan for `s.rfind(pat)`: `s` is the text from position `i` on; the result is the last
position at which `pat` occurs, if any. -/
def rfindFrom (pat : List Char) : List Char → Nat → Option Nat
  | [], i => if pat.isPrefixOf [] then some i else none
  | c :: t, i =>
    match rfindFrom pat t (i + 1) with
    | some j => some j
    | none => if pat.isPrefixOf (c :: t) then some i else none

/-- Member `s.rfind(pat)` of `std::string`: the last position at which `pat` occurs, `npos`
when there is none. -/
def rfind (s pat : List Char) : Nat :=
  (rfindFrom pat s 0).getD npos

/-- Member `s.substr(pos, n)` of `std::string`: throws `std::out_of_range` when
`pos > s.size()`, and stops at the end of `s` otherwise. -/
def substr (s : List Char) (pos n : Nat) : Except Fault (List Char) :=
  if pos ≤ s.length then .ok ((s.drop pos).take n) else .error .out_of_range

/-- The test `isspace` of the C locale: space, `\t`, `\n`, `\v`, `\f`, `\r`. -/
def isspace (c : Char) : Bool :=
  c.toNat = 32 || (9 ≤ c.toNat && c.toNat ≤ 13)

/-- The test `isdigit` of the C locale: the characters `0` to `9`. -/
def isdigit (c : Char) : Bool :=
  48 ≤ c.toNat && c.toNat ≤ 57

/-- The value of a string of decimal digits. -/
def digitsValue (ds : List Char) : Nat :=
  ds.foldl (fun acc c => 10 * acc + (c.toNat - 48)) 0

/-- An optional sign in front of the digits, as `strtol` reads it: the sign (is it `-`) and
the text after it. -/
def readSign : List Char → Bool × List Char
  | '-' :: t => (true, t)
  | '+' :: t => (false, t)
  | s => (false, s)

/-- Function `std::stoi(s)` (base 10): skip white space, read an optional sign and the longest
run of digits, and ignore what follows. Throws `std::invalid_argument` when there is no digit
and `std::out_of_range` when the value is not an `int`. -/
def stoi (s : List Char) : Except Fault Int :=
  let signed := readSign (s.dropWhile isspace)
  let ds := signed.2.takeWhile isdigit
  if ds = [] then .error .invalid_argument
  else
    let v : Int := if signed.1 then -(digitsValue ds : Int) else (digitsValue ds : Int)
    if v < -(2 : Int) ^ 31 ∨ (2 : Int) ^ 31 - 1 < v then .error .out_of_range else .ok v

/-- The `int` that a two's complement machine keeps of the exact result `x`. -/
def wrap32 (x : Int) : Int :=
  (x + 2 ^ 31) % 2 ^ 32 - 2 ^ 31

/-- Modelled from the spec: `Contains` (utilities.hpp) is not among the sources; the spec
describes it as the test that a marker is a substring of the identifier. -/
def Contains : List Char → List Char → Bool
  | [], pat => pat.isPrefixOf []
  | c :: t, pat => pat.isPrefixOf (c :: t) || Contains t pat

/-! ## Sample classifier -/

/-- Function `GetGluinoMass(path)`. The positions are `size_t` values: `rfind` gives `npos`
when the key is absent and the sum `pos1` wraps around. -/
def GetGluinoMass (path : List Char) : Except Fault Int :=
  let key := "_mChi-".toList
  let pos1 := (rfind path key + key.length) % 2 ^ 64
  let pos2 := find path "_".toList pos1
  match substr path pos1 ((pos2 + 2 ^ 64 - pos1) % 2 ^ 64) with
  | .error e => .error e
  | .ok mass_string =>
    match stoi mass_string with
    | .error e => .error e
    | .ok unrounded_mass =>
      if unrounded_mass ≠ 127 then .ok ((wrap32 (unrounded_mass + 12)).tdiv 25 * 25)
      else .ok unrounded_mass

/-- Line 57 of `main`: the year, from the first input path. -/
def main_year (first_input : List Char) : Int :=
  if Contains first_input "RunIISummer16".toList then 2016
  else if Contains first_input "RunIIFall17".toList then 2017 else 2018

/-! ## Correction pipeline -/

/-- Modelled from the spec: the cross-section lookups (cross_sections.hpp) are not among the
sources. `crossSection sample is2016` is `xsec::crossSection`, and `higgsinoCrossSection mass`
gives the pair (xsec, uncertainty) that `xsec::higgsinoCrossSection` writes to its two
reference arguments. -/
structure CrossSections where
  crossSection : List Char → Bool → ℚ
  higgsinoCrossSection : Int → ℚ × ℚ

/-- Function `FixLumi(corr, corr_path, year)`. -/
def FixLumi (xs : CrossSections) (corr : corrections_tree) (corr_path : List Char)
    (year : Int) : Except Fault corrections_tree :=
  let lumi : ℚ := 1000
  if Contains corr_path "SMS-TChi".toList then
    match GetGluinoMass corr_path with
    | .error e => .error e
    | .ok mglu =>
      .ok { corr with out_w_lumi := (xs.higgsinoCrossSection mglu).1 * lumi / corr.out_neff }
  else
    .ok { corr with
      out_w_lumi := xs.crossSection corr_path (decide (year = 2016)) * lumi / corr.out_neff }

/-- The read `v[i]` through `operator[]`: defined only for `i < v.size()`. -/
def readIdx (v : List ℚ) (i : Nat) : Except Fault ℚ :=
  match v.get? i with
  | some x => .ok x
  | none => .error .index_past_end

/-- The write `v[i] = x` through `operator[]`: defined only for `i < v.size()`. -/
def writeIdx (v : List ℚ) (i : Nat) (x : ℚ) : Except Fault (List ℚ) :=
  if i < v.length then .ok (v.set i x) else .error .index_past_end

/-- Lines 201-203 of `FixISR`, over the indices still to visit:
`corr_sys_isr[i] = out_sys_isr[i] ? nent / out_sys_isr[i] : 1.`. -/
def deriveSysIsr (nent : ℚ) (out_sys_isr : List ℚ) : List Nat → List ℚ → Except Fault (List ℚ)
  | [], corr_sys_isr => .ok corr_sys_isr
  | i :: rest, corr_sys_isr =>
    match writeIdx corr_sys_isr i
        (if out_sys_isr.getD i 0 ≠ 0 then nent / out_sys_isr.getD i 0 else 1) with
    | .ok v => deriveSysIsr nent out_sys_isr rest v
    | .error e => .error e

/-- Lines 207-209 of `FixISR`, over the indices still to visit:
`out_sys_isr[i] = corr_sys_isr[i]`. -/
def copySysIsr (corr_sys_isr : List ℚ) : List Nat → List ℚ → Except Fault (List ℚ)
  | [], out_sys_isr => .ok out_sys_isr
  | i :: rest, out_sys_isr =>
    match readIdx corr_sys_isr i with
    | .ok x => copySysIsr corr_sys_isr rest (out_sys_isr.set i x)
    | .error e => .error e

/-- Lines 184-204 of `FixISR`: the pair (`corr_w_isr`, `corr_sys_isr`). The vector
`corr_sys_isr` is created with two elements equal to `1.`. -/
def isrCorrection (corr : corrections_tree) (corr_path : List Char) :
    Except Fault (ℚ × List ℚ) :=
  if Contains corr_path "TTJets_HT".toList || Contains corr_path "genMET-150".toList then
    if Contains corr_path "TTJets_DiLept".toList then
      .ok (1 / 0.997, [1 / 1.057, 1 / 0.938])
    else
      .ok (1 / 1.017, [1 / 1.067, 1 / 0.967])
  else
    match deriveSysIsr corr.out_nent corr.out_sys_isr (List.range corr.out_sys_isr.length)
        [1, 1] with
    | .ok corr_sys_isr =>
      .ok (if corr.out_w_isr ≠ 0 then corr.out_nent / corr.out_w_isr else 1, corr_sys_isr)
    | .error e => .error e

/-- Lines 215-218 of `FixISR`: the factor `w_corr_l0`. -/
def w_corr_l0 (corr : corrections_tree) : ℚ :=
  let nent := corr.out_nent
  let nent_zlep := corr.out_nent_zlep
  let w0 : ℚ := 1
  let w1 := if corr.out_w_lep ≠ 0 then w0 * ((nent - corr.out_w_lep) / nent_zlep) else w0
  let w2 := if corr.out_w_fs_lep ≠ 0 then w1 * ((nent - corr.out_w_fs_lep) / nent_zlep) else w1
  if nent_zlep = 0 then 1 else w2

/-- Function `FixISR(corr, corr_path, year)`. -/
def FixISR (corr : corrections_tree) (corr_path : List Char) (year : Int) :
    Except Fault corrections_tree :=
  let tot_w_isr := corr.out_w_isr
  match isrCorrection corr corr_path with
  | .error e => .error e
  | .ok (corr_w_isr, corr_sys_isr) =>
    match copySysIsr corr_sys_isr (List.range corr.out_sys_isr.length) corr.out_sys_isr with
    | .error e => .error e
    | .ok sys_isr =>
      let nent := corr.out_nent
      .ok { corr with
        out_w_isr := corr_w_isr
        out_sys_isr := sys_isr
        out_weight :=
          if year = 2016 then
            (tot_w_isr * corr_w_isr) /
              (corr.out_tot_weight_l0 * w_corr_l0 corr + corr.out_tot_weight_l1)
          else
            nent / (corr.out_tot_weight_l0 * w_corr_l0 corr + corr.out_tot_weight_l1) }

/-- The expression `x ? (nent - x) / nent_zlep : 1.` of `Fix0L`. -/
def fix0L (nent nent_zlep x : ℚ) : ℚ :=
  if x ≠ 0 then (nent - x) / nent_zlep else 1

/-- Function `Fix0L(corr)`. -/
def Fix0L (corr : corrections_tree) : corrections_tree :=
  let nent := corr.out_nent
  let nent_zlep := corr.out_nent_zlep
  { corr with
    out_w_lep := fix0L nent nent_zlep corr.out_w_lep
    out_w_fs_lep := fix0L nent nent_zlep corr.out_w_fs_lep
    out_sys_lep := corr.out_sys_lep.map (fix0L nent nent_zlep)
    out_sys_fs_lep := corr.out_sys_fs_lep.map (fix0L nent nent_zlep) }

/-- Template `Normalize(T &x, double nent)`: `x = x ? nent/x : 1.`. -/
def Normalize (x nent : ℚ) : ℚ :=
  if x ≠ 0 then nent / x else 1

/-- Template `Normalize(vector<T> &v, double nent)`: the same, for each element of `v`. -/
def Normalize_vector (v : List ℚ) (nent : ℚ) : List ℚ :=
  v.map (fun x => if x ≠ 0 then nent / x else 1)

/-- Function `Normalize(corrections_tree &corr)`. -/
def Normalize_corr (corr : corrections_tree) : corrections_tree :=
  let nent := corr.out_nent
  { corr with
    out_w_btag := Normalize corr.out_w_btag nent
    out_w_btag_df := Normalize corr.out_w_btag_df nent
    out_w_bhig := Normalize corr.out_w_bhig nent
    out_w_bhig_df := Normalize corr.out_w_bhig_df nent
    out_w_pu := Normalize corr.out_w_pu nent
    out_sys_bchig := Normalize_vector corr.out_sys_bchig nent
    out_sys_udsghig := Normalize_vector corr.out_sys_udsghig nent
    out_sys_fs_bchig := Normalize_vector corr.out_sys_fs_bchig nent
    out_sys_fs_udsghig := Normalize_vector corr.out_sys_fs_udsghig nent
    out_sys_pu := Normalize_vector corr.out_sys_pu nent }

/-- Lines 79-83 of `main`: the four stages in the order of the source. -/
def corrections (xs : CrossSections) (corr : corrections_tree) (output_path : List Char)
    (year : Int) : Except Fault corrections_tree :=
  match FixLumi xs corr output_path year with
  | .error e => .error e
  | .ok c1 =>
    match FixISR c1 output_path year with
    | .error e => .error e
    | .ok c2 => .ok (Normalize_corr (Fix0L c2))

/-- Function `main`. `args` are the arguments left after the options (`argv[optind]` and the
following), `readTree p` is the sequence of entries stored in the input file `p`, and `corr`
is the output tree as its constructor leaves it. The result is the row that is written. -/
def main (xs : CrossSections) (readTree : List Char → List WeightRecord)
    (corr : corrections_tree) (args : List (List Char)) : Except Fault corrections_tree :=
  match args with
  | [] => .error .too_few_arguments
  | [_] => .error .too_few_arguments
  | output_path :: first_input :: more_inputs =>
    let input_paths := first_input :: more_inputs
    let year := main_year first_input
    match aggregate corr (input_paths.flatMap readTree) with
    | .error e => .error e
    | .ok sums => corrections xs sums output_path year

/-! ## Vocabulary of the statements -/

/-- The eight systematic vectors of `r` have the lengths of those of `r0`. -/
def SameShape (r r0 : WeightRecord) : Prop :=
  r.sys_lep.length = r0.sys_lep.length ∧ r.sys_fs_lep.length = r0.sys_fs_lep.length ∧
  r.sys_bchig.length = r0.sys_bchig.length ∧ r.sys_udsghig.length = r0.sys_udsghig.length ∧
  r.sys_fs_bchig.length = r0.sys_fs_bchig.length ∧
  r.sys_fs_udsghig.length = r0.sys_fs_udsghig.length ∧
  r.sys_isr.length = r0.sys_isr.length ∧ r.sys_pu.length = r0.sys_pu.length

/-- The vector `v` has `n` elements and is the element-wise sum of the vectors `vs`. -/
def IsElementwiseSum (v : List ℚ) (n : Nat) (vs : List (List ℚ)) : Prop :=
  v.length = n ∧ ∀ i, i < n → v.getD i 0 = (vs.map (fun w => w.getD i 0)).sum

/-- What `AddEntry` returns when no `VecAdd` throws. -/
def addPure (corr : corrections_tree) (wgt_sums : WeightRecord) : corrections_tree :=
  { corr with
    out_neff := corr.out_neff + wgt_sums.neff
    out_nent := corr.out_nent + wgt_sums.nent
    out_nent_zlep := corr.out_nent_zlep + wgt_sums.nent_zlep
    out_tot_weight_l0 := corr.out_tot_weight_l0 + wgt_sums.tot_weight_l0
    out_tot_weight_l1 := corr.out_tot_weight_l1 + wgt_sums.tot_weight_l1
    out_weight := corr.out_weight + wgt_sums.weight
    out_w_lep := corr.out_w_lep + wgt_sums.w_lep
    out_w_fs_lep := corr.out_w_fs_lep + wgt_sums.w_fs_lep
    out_w_bhig := corr.out_w_bhig + wgt_sums.w_bhig
    out_w_btag := corr.out_w_btag + wgt_sums.w_btag
    out_w_bhig_df := corr.out_w_bhig_df + wgt_sums.w_bhig_df
    out_w_btag_df := corr.out_w_btag_df + wgt_sums.w_btag_df
    out_w_isr := corr.out_w_isr + wgt_sums.w_isr
    out_w_pu := corr.out_w_pu + wgt_sums.w_pu
    out_sys_lep := List.zipWith (· + ·) corr.out_sys_lep wgt_sums.sys_lep
    out_sys_fs_lep := List.zipWith (· + ·) corr.out_sys_fs_lep wgt_sums.sys_fs_lep
    out_sys_bchig := List.zipWith (· + ·) corr.out_sys_bchig wgt_sums.sys_bchig
    out_sys_udsghig := List.zipWith (· + ·) corr.out_sys_udsghig wgt_sums.sys_udsghig
    out_sys_fs_bchig := List.zipWith (· + ·) corr.out_sys_fs_bchig wgt_sums.sys_fs_bchig
    out_sys_fs_udsghig := List.zipWith (· + ·) corr.out_sys_fs_udsghig wgt_sums.sys_fs_udsghig
    out_sys_isr := List.zipWith (· + ·) corr.out_sys_isr wgt_sums.sys_isr
    out_sys_pu := List.zipWith (· + ·) corr.out_sys_pu wgt_sums.sys_pu }

/-- The accumulator vectors of `corr` have the lengths of the vectors of `r0`. -/
def ShapedAs (corr : corrections_tree) (r0 : WeightRecord) : Prop :=
  corr.out_sys_lep.length = r0.sys_lep.length ∧
  corr.out_sys_fs_lep.length = r0.sys_fs_lep.length ∧
  corr.out_sys_bchig.length = r0.sys_bchig.length ∧
  corr.out_sys_udsghig.length = r0.sys_udsghig.length ∧
  corr.out_sys_fs_bchig.length = r0.sys_fs_bchig.length ∧
  corr.out_sys_fs_udsghig.length = r0.sys_fs_udsghig.length ∧
  corr.out_sys_isr.length = r0.sys_isr.length ∧ corr.out_sys_pu.length = r0.sys_pu.length

/-- The text begins with an integer as `std::stoi` reads one: white space, then an optional
sign, then at least one decimal digit. -/
def BeginsWithInteger (t : List Char) : Prop :=
  ∃ ws sg ds tail, t = ws ++ sg ++ ds ++ tail ∧ (∀ c ∈ ws, isspace c = true) ∧
    (sg = [] ∨ sg = ['+'] ∨ sg = ['-']) ∧ ds ≠ [] ∧ ∀ c ∈ ds, isdigit c = true

/-- The guard on a divisor: a field whose value before the stage is `0` is `1` after it. -/
def ZeroGivesOne (before after : ℚ) : Prop :=
  before = 0 → after = 1

/-- The guard on a divisor, for each element of a vector. -/
def ZeroGivesOneVec (before after : List ℚ) : Prop :=
  after.length = before.length ∧
    ∀ i, i < before.length → before.getD i 0 = 0 → after.getD i 0 = 1

/-! ## Concrete inputs -/

/-- An output tree before the run: every branch zero or empty, `out_w_prefire` set to `1`. -/
def freshTree : corrections_tree :=
  { out_weight := 0, out_w_lumi := 0, out_w_lep := 0, out_w_fs_lep := 0, out_w_btag := 0,
    out_w_btag_df := 0, out_w_bhig := 0, out_w_bhig_df := 0, out_w_isr := 0, out_w_pu := 0,
    out_w_prefire := 1, out_neff := 0, out_nent := 0, out_nent_zlep := 0,
    out_tot_weight_l0 := 0, out_tot_weight_l1 := 0, out_sys_lep := [], out_sys_fs_lep := [],
    out_sys_bchig := [], out_sys_udsghig := [], out_sys_fs_bchig := [],
    out_sys_fs_udsghig := [], out_sys_isr := [], out_sys_pu := [] }

/-- A record whose scalars are all `a` and whose eight vectors are all `v`. -/
def uniformRecord (a : ℚ) (v : List ℚ) : WeightRecord :=
  { neff := a, nent := a, nent_zlep := a, tot_weight_l0 := a, tot_weight_l1 := a, weight := a,
    w_lep := a, w_fs_lep := a, w_bhig := a, w_btag := a, w_bhig_df := a, w_btag_df := a,
    w_isr := a, w_pu := a, sys_lep := v, sys_fs_lep := v, sys_bchig := v, sys_udsghig := v,
    sys_fs_bchig := v, sys_fs_udsghig := v, sys_isr := v, sys_pu := v }

/-- Some systematic vector of the record has a length other than that of the accumulator's
vector. -/
def LengthsDiffer (r : WeightRecord) (corr : corrections_tree) : Prop :=
  r.sys_lep.length ≠ corr.out_sys_lep.length ∨
  r.sys_fs_lep.length ≠ corr.out_sys_fs_lep.length ∨
  r.sys_bchig.length ≠ corr.out_sys_bchig.length ∨
  r.sys_udsghig.length ≠ corr.out_sys_udsghig.length ∨
  r.sys_fs_bchig.length ≠ corr.out_sys_fs_bchig.length ∨
  r.sys_fs_udsghig.length ≠ corr.out_sys_fs_udsghig.length ∨
  r.sys_isr.length ≠ corr.out_sys_isr.length ∨ r.sys_pu.length ≠ corr.out_sys_pu.length

/-- Some systematic vector of the record is longer than the accumulator's vector. -/
def SomeLonger (r : WeightRecord) (corr : corrections_tree) : Prop :=
  corr.out_sys_lep.length < r.sys_lep.length ∨
  corr.out_sys_fs_lep.length < r.sys_fs_lep.length ∨
  corr.out_sys_bchig.length < r.sys_bchig.length ∨
  corr.out_sys_udsghig.length < r.sys_udsghig.length ∨
  corr.out_sys_fs_bchig.length < r.sys_fs_bchig.length ∨
  corr.out_sys_fs_udsghig.length < r.sys_fs_udsghig.length ∨
  corr.out_sys_isr.length < r.sys_isr.length ∨ corr.out_sys_pu.length < r.sys_pu.length

/-- The tree `freshTree` with every vector set to `v`. -/
def shapedTree (v : List ℚ) : corrections_tree :=
  { freshTree with
    out_sys_lep := v, out_sys_fs_lep := v, out_sys_bchig := v, out_sys_udsghig := v,
    out_sys_fs_bchig := v, out_sys_fs_udsghig := v, out_sys_isr := v, out_sys_pu := v }

/-- The accumulator of the year-branch scenario: `tot_weight_l0 = 10`, `tot_weight_l1 = 5`,
a `w_isr` sum of `100` over `200` entries, no zero-lepton entry. -/
def isrExample : corrections_tree :=
  { freshTree with
    out_tot_weight_l0 := 10, out_tot_weight_l1 := 5, out_w_isr := 100, out_nent := 200,
    out_sys_isr := [100, 50] }

/-- The accumulator `isrExample` with a third element in `sys_isr`. -/
def isrThree : corrections_tree :=
  { isrExample with out_sys_isr := [100, 50, 25] }

/-- An accumulator for the last two stages: four entries, none of them a zero-lepton entry,
and sums that are zero in some places. -/
def stageExample : corrections_tree :=
  { freshTree with
    out_nent := 4, out_nent_zlep := 0, out_w_lep := 0, out_w_fs_lep := 0,
    out_sys_lep := [0, 0], out_sys_fs_lep := [0],
    out_w_btag := 1, out_w_btag_df := 0, out_w_bhig := 2, out_w_bhig_df := 8, out_w_pu := 4,
    out_sys_bchig := [2, 0], out_sys_udsghig := [1], out_sys_fs_bchig := [0],
    out_sys_fs_udsghig := [8, 16], out_sys_pu := [4, 0] }

/-- A cross-section table for the examples: `2` for a 2016 sample, `3` otherwise, and the mass
itself (with uncertainty `0`) for the higgsino lookup. -/
def exampleXs : CrossSections :=
  { crossSection := fun _ is2016 => if is2016 then 2 else 3
    higgsinoCrossSection := fun mass => ((mass : ℚ), 0) }

/-- An accumulator with `neff = 4` and nothing else. -/
def lumiExample : corrections_tree :=
  { freshTree with out_neff := 4 }

/-- An accumulator with a single element in `sys_isr`. -/
def isrOne : corrections_tree :=
  { isrExample with out_sys_isr := [100] }

/-- An accumulator for the order of `FixISR` and `Fix0L`: ten entries, two of them
zero-lepton entries, nonzero lepton sums. -/
def orderExample : corrections_tree :=
  { freshTree with
    out_nent := 10, out_nent_zlep := 2, out_w_lep := 4, out_w_fs_lep := 2,
    out_tot_weight_l0 := 1, out_w_isr := 10 }

/-- An accumulator with no zero-lepton entry, a nonzero `w_lep` sum and total weights `0`. -/
def zlepExample : corrections_tree :=
  { freshTree with out_nent := 4, out_w_lep := 3, out_w_isr := 2 }

/-- An accumulator for two passes of the pipeline: `neff = 1`, four entries, a `w_btag` sum
of `1`. -/
def idemExample : corrections_tree :=
  { freshTree with
    out_neff := 1, out_nent := 4, out_nent_zlep := 2, out_tot_weight_l1 := 1, out_w_btag := 1 }

/-- Input files that all hold the same single entry. -/
def exampleReadTree : List Char → List WeightRecord :=
  fun _ => [uniformRecord 1 [1, 1]]

/-! ## Aggregator: proofs -/

theorem VecAdd_eq_zipWith : ∀ (ws cs : List ℚ), ws.length = cs.length →
    VecAdd ws cs = .ok (List.zipWith (· + ·) cs ws)
  | [], [], _ => rfl
  | [], _ :: _, h => by simp at h
  | _ :: _, [], h => by simp at h
  | w :: ws, c :: cs, h => by
    have ih := VecAdd_eq_zipWith ws cs (by simpa using h)
    simp [VecAdd, ih]

theorem AddEntry_eq_addPure (r r0 : WeightRecord) (corr : corrections_tree)
    (hc : ShapedAs corr r0) (hr : SameShape r r0) : AddEntry r corr = .ok (addPure corr r) := by
  obtain ⟨c1, c2, c3, c4, c5, c6, c7, c8⟩ := hc
  obtain ⟨r1, r2, r3, r4, r5, r6, r7, r8⟩ := hr
  simp only [AddEntry, bind, Except.bind, pure, Except.pure,
    VecAdd_eq_zipWith _ _ (r1.trans c1.symm), VecAdd_eq_zipWith _ _ (r2.trans c2.symm),
    VecAdd_eq_zipWith _ _ (r3.trans c3.symm), VecAdd_eq_zipWith _ _ (r4.trans c4.symm),
    VecAdd_eq_zipWith _ _ (r5.trans c5.symm), VecAdd_eq_zipWith _ _ (r6.trans c6.symm),
    VecAdd_eq_zipWith _ _ (r7.trans c7.symm), VecAdd_eq_zipWith _ _ (r8.trans c8.symm)]
  rfl

theorem addPure_shaped (r r0 : WeightRecord) (corr : corrections_tree)
    (hc : ShapedAs corr r0) (hr : SameShape r r0) : ShapedAs (addPure corr r) r0 := by
  obtain ⟨c1, c2, c3, c4, c5, c6, c7, c8⟩ := hc
  obtain ⟨r1, r2, r3, r4, r5, r6, r7, r8⟩ := hr
  simp [ShapedAs, addPure, *]

theorem addEntries_eq_foldl (r0 : WeightRecord) : ∀ (rs : List WeightRecord)
    (corr : corrections_tree), ShapedAs corr r0 → (∀ r ∈ rs, SameShape r r0) →
    addEntries corr rs = .ok (rs.foldl addPure corr) ∧ ShapedAs (rs.foldl addPure corr) r0
  | [], _, hc, _ => ⟨rfl, hc⟩
  | r :: rs, corr, hc, hr => by
    have hr0 : SameShape r r0 := hr r (List.mem_cons_self _ _)
    have ih := addEntries_eq_foldl r0 rs (addPure corr r) (addPure_shaped r r0 corr hc hr0)
      (fun x hx => hr x (List.mem_cons_of_mem _ hx))
    simp only [addEntries, AddEntry_eq_addPure r r0 corr hc hr0, List.foldl_cons]
    exact ih

theorem foldl_addPure_scalar (f : corrections_tree → ℚ) (g : WeightRecord → ℚ)
    (hstep : ∀ c r, f (addPure c r) = f c + g r) :
    ∀ (rs : List WeightRecord) (c : corrections_tree),
      f (rs.foldl addPure c) = f c + (rs.map g).sum
  | [], c => by simp
  | r :: rs, c => by
    simp only [List.foldl_cons, List.map_cons, List.sum_cons]
    rw [foldl_addPure_scalar f g hstep rs (addPure c r), hstep]
    ring

theorem getD_zipWith_add : ∀ (a b : List ℚ) (i : Nat), a.length = b.length →
    (List.zipWith (· + ·) a b).getD i 0 = a.getD i 0 + b.getD i 0
  | [], [], _, _ => by simp
  | [], _ :: _, _, h => by simp at h
  | _ :: _, [], _, h => by simp at h
  | x :: a, y :: b, 0, _ => by simp
  | x :: a, y :: b, i + 1, h => by
    have ih := getD_zipWith_add a b i (by simpa using h)
    simpa using ih

theorem foldl_addPure_vector (f : corrections_tree → List ℚ) (g : WeightRecord → List ℚ)
    (hstep : ∀ c r, f (addPure c r) = List.zipWith (· + ·) (f c) (g r)) (n : Nat) :
    ∀ (rs : List WeightRecord) (c : corrections_tree), (f c).length = n →
      (∀ r ∈ rs, (g r).length = n) →
      (f (rs.foldl addPure c)).length = n ∧
      ∀ i, (f (rs.foldl addPure c)).getD i 0 =
        (f c).getD i 0 + (rs.map (fun r => (g r).getD i 0)).sum
  | [], c, hc, _ => by simp [hc]
  | r :: rs, c, hc, hr => by
    have hr0 : (g r).length = n := hr r (List.mem_cons_self _ _)
    have hlen : (f (addPure c r)).length = n := by simp [hstep, hc, hr0]
    have ih := foldl_addPure_vector f g hstep n rs (addPure c r) hlen
      (fun x hx => hr x (List.mem_cons_of_mem _ hx))
    refine ⟨ih.1, fun i => ?_⟩
    simp only [List.foldl_cons, List.map_cons, List.sum_cons]
    rw [ih.2 i, hstep, getD_zipWith_add _ _ i (hc.trans hr0.symm)]
    ring

theorem zipWith_add_right_comm : ∀ (c a b : List ℚ),
    List.zipWith (· + ·) (List.zipWith (· + ·) c a) b =
      List.zipWith (· + ·) (List.zipWith (· + ·) c b) a
  | [], _, _ => by simp
  | _ :: _, [], [] => by simp
  | _ :: _, [], _ :: _ => by simp
  | _ :: _, _ :: _, [] => by simp
  | x :: c, y :: a, z :: b => by
    simp only [List.zipWith_cons_cons, List.cons.injEq]
    exact ⟨by ring, zipWith_add_right_comm c a b⟩

theorem addPure_right_comm (c : corrections_tree) (r1 r2 : WeightRecord) :
    addPure (addPure c r1) r2 = addPure (addPure c r2) r1 := by
  simp only [addPure, corrections_tree.mk.injEq, zipWith_add_right_comm _ r1.sys_lep,
    zipWith_add_right_comm _ r1.sys_fs_lep, zipWith_add_right_comm _ r1.sys_bchig,
    zipWith_add_right_comm _ r1.sys_udsghig, zipWith_add_right_comm _ r1.sys_fs_bchig,
    zipWith_add_right_comm _ r1.sys_fs_udsghig, zipWith_add_right_comm _ r1.sys_isr,
    zipWith_add_right_comm _ r1.sys_pu, and_true, true_and]
  refine ⟨?_, ?_, ?_, ?_, ?_, ?_, ?_, ?_, ?_, ?_, ?_, ?_, ?_, ?_⟩ <;> ring

theorem Initialize_shaped (r0 : WeightRecord) (corr : corrections_tree) :
    ShapedAs (Initialize r0 corr) r0 := by
  simp [ShapedAs, Initialize, CopySize]

theorem Initialize_congr (r r0 : WeightRecord) (corr : corrections_tree)
    (h : SameShape r r0) : Initialize r corr = Initialize r0 corr := by
  obtain ⟨r1, r2, r3, r4, r5, r6, r7, r8⟩ := h
  simp [Initialize, CopySize, *]

theorem getD_CopySize (v : List ℚ) (i : Nat) : (CopySize v).getD i 0 = 0 := by
  simp only [CopySize, List.getD_eq_getElem?_getD, List.getElem?_replicate]
  split <;> rfl

theorem aggregate_eq_foldl (corr : corrections_tree) (r0 : WeightRecord)
    (rs : List WeightRecord) (hshape : ∀ r ∈ rs, SameShape r r0) :
    aggregate corr (r0 :: rs) = .ok ((r0 :: rs).foldl addPure (Initialize r0 corr)) := by
  have hall : ∀ r ∈ r0 :: rs, SameShape r r0 := by
    intro r hr
    rcases List.mem_cons.1 hr with rfl | h
    · exact ⟨rfl, rfl, rfl, rfl, rfl, rfl, rfl, rfl⟩
    · exact hshape r h
  exact (addEntries_eq_foldl r0 (r0 :: rs) _ (Initialize_shaped r0 corr) hall).1

theorem aggregate_perm (corr : corrections_tree) (r0 : WeightRecord)
    (rs : List WeightRecord) (hshape : ∀ r ∈ rs, SameShape r r0)
    (entries : List WeightRecord) (hp : entries.Perm (r0 :: rs)) :
    aggregate corr entries = aggregate corr (r0 :: rs) := by
  have hall : ∀ r ∈ r0 :: rs, SameShape r r0 := by
    intro r hr
    rcases List.mem_cons.1 hr with rfl | h
    · exact ⟨rfl, rfl, rfl, rfl, rfl, rfl, rfl, rfl⟩
    · exact hshape r h
  rw [aggregate_eq_foldl corr r0 rs hshape]
  cases entries with
  | nil => exact absurd hp.length_eq (by simp)
  | cons e es =>
    have he : SameShape e r0 := hall e (hp.subset (List.mem_cons_self _ _))
    have hes : ∀ r ∈ e :: es, SameShape r r0 := fun r hr => hall r (hp.subset hr)
    have h1 : aggregate corr (e :: es) = addEntries (Initialize r0 corr) (e :: es) := by
      simp only [aggregate, Initialize_congr e r0 corr he]
    rw [h1, (addEntries_eq_foldl r0 (e :: es) _ (Initialize_shaped r0 corr) hes).1,
      hp.foldl_eq' (fun x _ y _ z => addPure_right_comm z x y)]

/-- C1: for a first record `r0` and further records `rs` whose eight vectors have the lengths
of those of `r0`, `Initialize` on `r0` followed by `AddEntry` on every record succeeds; each
scalar sum of the result is the sum of that field over all records, each vector has the length
of the first record's vector and is the element-wise sum; and every permutation of the records
gives the same accumulator. -/
theorem aggregate_sums (corr : corrections_tree) (r0 : WeightRecord) (rs : List WeightRecord)
    (hshape : ∀ r ∈ rs, SameShape r r0) :
    ∃ acc, aggregate corr (r0 :: rs) = .ok acc ∧
      acc.out_neff = ((r0 :: rs).map (fun r => r.neff)).sum ∧
      acc.out_nent = ((r0 :: rs).map (fun r => r.nent)).sum ∧
      acc.out_nent_zlep = ((r0 :: rs).map (fun r => r.nent_zlep)).sum ∧
      acc.out_tot_weight_l0 = ((r0 :: rs).map (fun r => r.tot_weight_l0)).sum ∧
      acc.out_tot_weight_l1 = ((r0 :: rs).map (fun r => r.tot_weight_l1)).sum ∧
      acc.out_weight = ((r0 :: rs).map (fun r => r.weight)).sum ∧
      acc.out_w_lep = ((r0 :: rs).map (fun r => r.w_lep)).sum ∧
      acc.out_w_fs_lep = ((r0 :: rs).map (fun r => r.w_fs_lep)).sum ∧
      acc.out_w_bhig = ((r0 :: rs).map (fun r => r.w_bhig)).sum ∧
      acc.out_w_btag = ((r0 :: rs).map (fun r => r.w_btag)).sum ∧
      acc.out_w_bhig_df = ((r0 :: rs).map (fun r => r.w_bhig_df)).sum ∧
      acc.out_w_btag_df = ((r0 :: rs).map (fun r => r.w_btag_df)).sum ∧
      acc.out_w_isr = ((r0 :: rs).map (fun r => r.w_isr)).sum ∧
      acc.out_w_pu = ((r0 :: rs).map (fun r => r.w_pu)).sum ∧
      IsElementwiseSum acc.out_sys_lep r0.sys_lep.length
        ((r0 :: rs).map (fun r => r.sys_lep)) ∧
      IsElementwiseSum acc.out_sys_fs_lep r0.sys_fs_lep.length
        ((r0 :: rs).map (fun r => r.sys_fs_lep)) ∧
      IsElementwiseSum acc.out_sys_bchig r0.sys_bchig.length
        ((r0 :: rs).map (fun r => r.sys_bchig)) ∧
      IsElementwiseSum acc.out_sys_udsghig r0.sys_udsghig.length
        ((r0 :: rs).map (fun r => r.sys_udsghig)) ∧
      IsElementwiseSum acc.out_sys_fs_bchig r0.sys_fs_bchig.length
        ((r0 :: rs).map (fun r => r.sys_fs_bchig)) ∧
      IsElementwiseSum acc.out_sys_fs_udsghig r0.sys_fs_udsghig.length
        ((r0 :: rs).map (fun r => r.sys_fs_udsghig)) ∧
      IsElementwiseSum acc.out_sys_isr r0.sys_isr.length
        ((r0 :: rs).map (fun r => r.sys_isr)) ∧
      IsElementwiseSum acc.out_sys_pu r0.sys_pu.length
        ((r0 :: rs).map (fun r => r.sys_pu)) ∧
      ∀ entries : List WeightRecord, entries.Perm (r0 :: rs) →
        aggregate corr entries = .ok acc := by
  have hall : ∀ r ∈ r0 :: rs, SameShape r r0 := by
    intro r hr
    rcases List.mem_cons.1 hr with rfl | h
    · exact ⟨rfl, rfl, rfl, rfl, rfl, rfl, rfl, rfl⟩
    · exact hshape r h
  have hsc : ∀ (f : corrections_tree → ℚ) (g : WeightRecord → ℚ),
      (∀ c r, f (addPure c r) = f c + g r) → f (Initialize r0 corr) = 0 →
      f ((r0 :: rs).foldl addPure (Initialize r0 corr)) = ((r0 :: rs).map g).sum := by
    intro f g hstep h0
    rw [foldl_addPure_scalar f g hstep, h0, zero_add]
  have hvec : ∀ (f : corrections_tree → List ℚ) (g : WeightRecord → List ℚ),
      (∀ c r, f (addPure c r) = List.zipWith (· + ·) (f c) (g r)) →
      f (Initialize r0 corr) = CopySize (g r0) →
      (∀ r ∈ r0 :: rs, (g r).length = (g r0).length) →
      IsElementwiseSum (f ((r0 :: rs).foldl addPure (Initialize r0 corr))) (g r0).length
        ((r0 :: rs).map g) := by
    intro f g hstep h0 hlen
    have h := foldl_addPure_vector f g hstep (g r0).length (r0 :: rs) (Initialize r0 corr)
      (by simp [h0, CopySize]) hlen
    refine ⟨h.1, fun i _ => ?_⟩
    rw [h.2 i, h0, getD_CopySize, zero_add, List.map_map]
    rfl
  refine ⟨_, aggregate_eq_foldl corr r0 rs hshape,
    hsc _ _ (fun _ _ => rfl) rfl, hsc _ _ (fun _ _ => rfl) rfl, hsc _ _ (fun _ _ => rfl) rfl,
    hsc _ _ (fun _ _ => rfl) rfl, hsc _ _ (fun _ _ => rfl) rfl, hsc _ _ (fun _ _ => rfl) rfl,
    hsc _ _ (fun _ _ => rfl) rfl, hsc _ _ (fun _ _ => rfl) rfl, hsc _ _ (fun _ _ => rfl) rfl,
    hsc _ _ (fun _ _ => rfl) rfl, hsc _ _ (fun _ _ => rfl) rfl, hsc _ _ (fun _ _ => rfl) rfl,
    hsc _ _ (fun _ _ => rfl) rfl, hsc _ _ (fun _ _ => rfl) rfl,
    hvec (fun c => c.out_sys_lep) (fun r => r.sys_lep) (fun _ _ => rfl) rfl
      (fun r hr => (hall r hr).1),
    hvec (fun c => c.out_sys_fs_lep) (fun r => r.sys_fs_lep) (fun _ _ => rfl) rfl
      (fun r hr => (hall r hr).2.1),
    hvec (fun c => c.out_sys_bchig) (fun r => r.sys_bchig) (fun _ _ => rfl) rfl
      (fun r hr => (hall r hr).2.2.1),
    hvec (fun c => c.out_sys_udsghig) (fun r => r.sys_udsghig) (fun _ _ => rfl) rfl
      (fun r hr => (hall r hr).2.2.2.1),
    hvec (fun c => c.out_sys_fs_bchig) (fun r => r.sys_fs_bchig) (fun _ _ => rfl) rfl
      (fun r hr => (hall r hr).2.2.2.2.1),
    hvec (fun c => c.out_sys_fs_udsghig) (fun r => r.sys_fs_udsghig) (fun _ _ => rfl) rfl
      (fun r hr => (hall r hr).2.2.2.2.2.1),
    hvec (fun c => c.out_sys_isr) (fun r => r.sys_isr) (fun _ _ => rfl) rfl
      (fun r hr => (hall r hr).2.2.2.2.2.2.1),
    hvec (fun c => c.out_sys_pu) (fun r => r.sys_pu) (fun _ _ => rfl) rfl
      (fun r hr => (hall r hr).2.2.2.2.2.2.2), ?_⟩
  intro entries hp
  rw [aggregate_perm corr r0 rs hshape entries hp]
  exact aggregate_eq_foldl corr r0 rs hshape

theorem aggregate_sums_witness :
    (∀ r ∈ [uniformRecord 2 [3, 4]], SameShape r (uniformRecord 1 [1, 2])) ∧
    ∃ acc, aggregate freshTree [uniformRecord 1 [1, 2], uniformRecord 2 [3, 4]] = .ok acc ∧
      acc.out_neff = 3 ∧ acc.out_sys_isr.length = 2 ∧ acc.out_sys_isr.getD 1 0 = 6 ∧
      aggregate freshTree [uniformRecord 2 [3, 4], uniformRecord 1 [1, 2]] = .ok acc := by
  have h : ∀ r ∈ [uniformRecord 2 [3, 4]], SameShape r (uniformRecord 1 [1, 2]) := by
    simp [SameShape, uniformRecord]
  obtain ⟨acc, hacc, hneff, -, -, -, -, -, -, -, -, -, -, -, -, -, -, -, -, -, -, -, hisr, -,
    hperm⟩ := aggregate_sums freshTree (uniformRecord 1 [1, 2]) [uniformRecord 2 [3, 4]] h
  refine ⟨h, acc, hacc, ?_, hisr.1, ?_, hperm _ (List.Perm.swap _ _ _)⟩
  · rw [hneff]; norm_num [uniformRecord]
  · rw [hisr.2 1 (by simp [uniformRecord])]; norm_num [uniformRecord]

theorem VecAdd_cases : ∀ (ws cs : List ℚ),
    (cs.length < ws.length ∧ VecAdd ws cs = .error .out_of_range) ∨
      (ws.length ≤ cs.length ∧ ∃ t, VecAdd ws cs = .ok t)
  | [], cs => Or.inr ⟨Nat.zero_le _, cs, rfl⟩
  | _ :: _, [] => Or.inl ⟨by simp, rfl⟩
  | w :: ws, c :: cs => by
    rcases VecAdd_cases ws cs with ⟨h, e⟩ | ⟨h, t, e⟩
    · exact Or.inl ⟨by simpa using h, by simp [VecAdd, e]⟩
    · exact Or.inr ⟨by simpa using h, (c + w) :: t, by simp [VecAdd, e]⟩

/-- C2 (amended): `AddEntry` ends with `std::out_of_range` exactly when some vector of the
record is longer than the accumulator's vector, and it returns an accumulator exactly when none
is; a record vector shorter than the accumulator's is not rejected. -/
theorem AddEntry_fails_iff_longer (r : WeightRecord) (corr : corrections_tree) :
    (AddEntry r corr = .error .out_of_range ↔ SomeLonger r corr) ∧
    ((∃ c, AddEntry r corr = .ok c) ↔ ¬ SomeLonger r corr) := by
  rcases VecAdd_cases r.sys_lep corr.out_sys_lep with ⟨h1, e1⟩ | ⟨h1, t1, e1⟩
  · simp [AddEntry, bind, Except.bind, e1, SomeLonger, h1]
  rcases VecAdd_cases r.sys_fs_lep corr.out_sys_fs_lep with ⟨h2, e2⟩ | ⟨h2, t2, e2⟩
  · simp [AddEntry, bind, Except.bind, e1, e2, SomeLonger, h2]
  rcases VecAdd_cases r.sys_bchig corr.out_sys_bchig with ⟨h3, e3⟩ | ⟨h3, t3, e3⟩
  · simp [AddEntry, bind, Except.bind, e1, e2, e3, SomeLonger, h3]
  rcases VecAdd_cases r.sys_udsghig corr.out_sys_udsghig with ⟨h4, e4⟩ | ⟨h4, t4, e4⟩
  · simp [AddEntry, bind, Except.bind, e1, e2, e3, e4, SomeLonger, h4]
  rcases VecAdd_cases r.sys_fs_bchig corr.out_sys_fs_bchig with ⟨h5, e5⟩ | ⟨h5, t5, e5⟩
  · simp [AddEntry, bind, Except.bind, e1, e2, e3, e4, e5, SomeLonger, h5]
  rcases VecAdd_cases r.sys_fs_udsghig corr.out_sys_fs_udsghig with ⟨h6, e6⟩ | ⟨h6, t6, e6⟩
  · simp [AddEntry, bind, Except.bind, e1, e2, e3, e4, e5, e6, SomeLonger, h6]
  rcases VecAdd_cases r.sys_isr corr.out_sys_isr with ⟨h7, e7⟩ | ⟨h7, t7, e7⟩
  · simp [AddEntry, bind, Except.bind, e1, e2, e3, e4, e5, e6, e7, SomeLonger, h7]
  rcases VecAdd_cases r.sys_pu corr.out_sys_pu with ⟨h8, e8⟩ | ⟨h8, t8, e8⟩
  · simp [AddEntry, bind, Except.bind, e1, e2, e3, e4, e5, e6, e7, e8, SomeLonger, h8]
  have hno : ¬ SomeLonger r corr := by
    simp only [SomeLonger, not_or, not_lt]
    exact ⟨h1, h2, h3, h4, h5, h6, h7, h8⟩
  simp [AddEntry, bind, Except.bind, pure, Except.pure, e1, e2, e3, e4, e5, e6, e7, e8, hno]

/-- C2 (counterexample): a record whose vectors have one element is added to an accumulator
whose vectors have two; `AddEntry` succeeds, changing only the first element. -/
theorem AddEntry_accepts_shorter_vector :
    LengthsDiffer (uniformRecord 1 [5]) (shapedTree [10, 20]) ∧
    ∃ c, AddEntry (uniformRecord 1 [5]) (shapedTree [10, 20]) = .ok c ∧
      c.out_sys_lep = [15, 20] ∧ c.out_sys_pu = [15, 20] := by
  refine ⟨Or.inl (by simp [uniformRecord, shapedTree]), ?_⟩
  simp only [AddEntry, bind, Except.bind, pure, Except.pure, uniformRecord, shapedTree,
    VecAdd, Except.ok.injEq, exists_eq_left']
  norm_num

/-! ## Sample classifier: proofs -/

theorem Contains_iff_sublist_at (pat : List Char) : ∀ (s : List Char),
    Contains s pat = true ↔ pat <:+: s
  | [] => by
    simp only [Contains, List.isPrefixOf_iff_prefix, List.prefix_nil, List.infix_nil]
  | c :: t => by
    simp only [Contains, Bool.or_eq_true, List.isPrefixOf_iff_prefix, Contains_iff_sublist_at pat t,
      List.infix_cons_iff]

theorem Contains_false_iff (pat s : List Char) : Contains s pat = false ↔ ¬ pat <:+: s := by
  rw [← Contains_iff_sublist_at, Bool.not_eq_true]

theorem rfindFrom_none (pat : List Char) : ∀ (s : List Char) (i : Nat),
    (∀ j, pat.isPrefixOf (s.drop j) = false) → rfindFrom pat s i = none
  | [], i, h => by
    have h0 := h 0
    simp only [List.drop_nil] at h0
    simp [rfindFrom, h0]
  | c :: t, i, h => by
    have h0 := h 0
    simp only [List.drop_zero] at h0
    have ih := rfindFrom_none pat t (i + 1) (fun j => by simpa using h (j + 1))
    simp [rfindFrom, ih, h0]

theorem rfindFrom_last (pat s : List Char) (hs : pat.isPrefixOf s = true)
    (hlater : ∀ j, pat.isPrefixOf (s.drop (j + 1)) = false) :
    ∀ (pre : List Char) (i : Nat), rfindFrom pat (pre ++ s) i = some (i + pre.length)
  | [], i => by
    cases s with
    | nil => simp [rfindFrom, hs]
    | cons c t =>
      have hn := rfindFrom_none pat t (i + 1) (fun j => by simpa using hlater j)
      simp [rfindFrom, hn, hs]
  | p :: pre, i => by
    have ih := rfindFrom_last pat s hs hlater pre (i + 1)
    have e : i + 1 + pre.length = i + (pre.length + 1) := by omega
    simp only [List.cons_append, rfindFrom, List.append_eq, ih, List.length_cons, e]

theorem Contains_false_drop (pat : List Char) : ∀ (s : List Char),
    Contains s pat = false → ∀ j, pat.isPrefixOf (s.drop j) = false
  | [], h, j => by simpa [Contains] using h
  | c :: t, h, j => by
    simp only [Contains, Bool.or_eq_false_iff] at h
    cases j with
    | zero => simpa using h.1
    | succ j => simpa using Contains_false_drop pat t h.2 j

theorem isPrefixOf_drop_skip (k : Char) (ks : List Char) (rest : List Char)
    (hrest : Contains rest (k :: ks) = false) : ∀ (t : List Char), (∀ c ∈ t, c ≠ k) →
    ∀ j, (k :: ks).isPrefixOf ((t ++ rest).drop j) = false
  | [], _, j => by simpa using Contains_false_drop (k :: ks) rest hrest j
  | c :: t, ht, j => by
    cases j with
    | zero =>
      have hc : c ≠ k := ht c (List.mem_cons_self _ _)
      simp [List.isPrefixOf, Ne.symm hc]
    | succ j =>
      simpa using isPrefixOf_drop_skip k ks rest hrest t
        (fun x hx => ht x (List.mem_cons_of_mem _ hx)) j

theorem findFrom_skip (k : Char) (rest : List Char) : ∀ (t : List Char) (i : Nat),
    (∀ c ∈ t, c ≠ k) → findFrom [k] (t ++ rest) i = findFrom [k] rest (i + t.length)
  | [], i, _ => by simp
  | c :: t, i, ht => by
    have hc : c ≠ k := ht c (List.mem_cons_self _ _)
    have ih := findFrom_skip k rest t (i + 1) (fun x hx => ht x (List.mem_cons_of_mem _ hx))
    have e : i + 1 + t.length = i + (t.length + 1) := by omega
    have hk : (k == c) = false := by simpa using Ne.symm hc
    simp [findFrom, List.isPrefixOf, hk, ih, e]

theorem key_toList : "_mChi-".toList = ['_', 'm', 'C', 'h', 'i', '-'] := rfl

theorem rfind_key (pre t rest : List Char) (ht : ∀ c ∈ t, c ≠ '_')
    (hlast : Contains rest "_mChi-".toList = false) :
    rfind (pre ++ "_mChi-".toList ++ t ++ rest) "_mChi-".toList = pre.length := by
  have hlater : ∀ j, ("_mChi-".toList).isPrefixOf
      (("_mChi-".toList ++ (t ++ rest)).drop (j + 1)) = false := by
    intro j
    rw [key_toList] at hlast ⊢
    match j with
    | 0 => simp [List.isPrefixOf]
    | 1 => simp [List.isPrefixOf]
    | 2 => simp [List.isPrefixOf]
    | 3 => simp [List.isPrefixOf]
    | 4 => simp [List.isPrefixOf]
    | j + 5 => simpa using isPrefixOf_drop_skip '_' _ rest hlast t ht j
  have hs : ("_mChi-".toList).isPrefixOf ("_mChi-".toList ++ (t ++ rest)) = true := by
    rw [key_toList]; simp [List.isPrefixOf]
  have h := rfindFrom_last _ _ hs hlater pre 0
  simp only [rfind, List.append_assoc, h, Option.getD_some, Nat.zero_add]

theorem find_underscore (front t rest : List Char) (ht : ∀ c ∈ t, c ≠ '_') :
    find (front ++ t ++ rest) "_".toList front.length =
      findFrom ['_'] rest (front.length + t.length) := by
  have hd : (front ++ t ++ rest).drop front.length = t ++ rest := by
    rw [List.append_assoc, List.drop_left]
  have hle : front.length ≤ (front ++ t ++ rest).length := by simp
  rw [find, if_pos hle, hd]
  exact findFrom_skip '_' rest t front.length ht

theorem GetGluinoMass_extract (pre t rest : List Char) (ht : ∀ c ∈ t, c ≠ '_')
    (hrest : rest = [] ∨ ∃ r, rest = '_' :: r)
    (hlast : Contains rest "_mChi-".toList = false)
    (hsize : (pre ++ "_mChi-".toList ++ t ++ rest).length < 2 ^ 64) :
    GetGluinoMass (pre ++ "_mChi-".toList ++ t ++ rest) =
      match stoi t with
      | .error e => .error e
      | .ok m => if m ≠ 127 then .ok ((wrap32 (m + 12)).tdiv 25 * 25) else .ok m := by
  have hlen : (pre ++ "_mChi-".toList ++ t ++ rest).length =
      pre.length + 6 + t.length + rest.length := by
    simp [key_toList]
    omega
  have hfront : (pre ++ "_mChi-".toList).length = pre.length + 6 := by simp [key_toList]
  have hpos1 : (rfind (pre ++ "_mChi-".toList ++ t ++ rest) "_mChi-".toList +
      ("_mChi-".toList).length) % 2 ^ 64 = pre.length + 6 := by
    rw [rfind_key pre t rest ht hlast]
    have : ("_mChi-".toList).length = 6 := rfl
    rw [this]
    exact Nat.mod_eq_of_lt (by omega)
  have hfind := find_underscore (pre ++ "_mChi-".toList) t rest ht
  rw [hfront] at hfind
  have hdrop : (pre ++ "_mChi-".toList ++ t ++ rest).drop (pre.length + 6) = t ++ rest := by
    rw [← hfront, List.append_assoc, List.drop_left]
  have hsub : substr (pre ++ "_mChi-".toList ++ t ++ rest) (pre.length + 6)
      ((find (pre ++ "_mChi-".toList ++ t ++ rest) "_".toList (pre.length + 6) + 2 ^ 64 -
        (pre.length + 6)) % 2 ^ 64) = .ok t := by
    have hle : pre.length + 6 ≤ (pre ++ "_mChi-".toList ++ t ++ rest).length := by omega
    rw [substr, if_pos hle, hdrop, hfind]
    rcases hrest with rfl | ⟨r, rfl⟩
    · have hn : findFrom ['_'] [] (pre.length + 6 + t.length) = 2 ^ 64 - 1 := by
        simp [findFrom, List.isPrefixOf, npos]
      simp only [List.length_nil] at hlen
      rw [hn, List.append_nil]
      have hm : (2 ^ 64 - 1 + 2 ^ 64 - (pre.length + 6)) % 2 ^ 64 =
          2 ^ 64 - 1 - (pre.length + 6) := by omega
      rw [hm, List.take_of_length_le (by omega)]
    · have hn : findFrom ['_'] ('_' :: r) (pre.length + 6 + t.length) =
          pre.length + 6 + t.length := by
        simp [findFrom, List.isPrefixOf]
      have hm : (pre.length + 6 + t.length + 2 ^ 64 - (pre.length + 6)) % 2 ^ 64 =
          t.length := by omega
      rw [hn, hm, List.take_left]
  simp only [GetGluinoMass, hpos1, hsub]

theorem isdigit_not_special (c : Char) (h : isdigit c = true) :
    isspace c = false ∧ c ≠ '-' ∧ c ≠ '+' ∧ c ≠ '_' := by
  simp only [isdigit, Bool.and_eq_true, decide_eq_true_eq] at h
  refine ⟨?_, ?_, ?_, ?_⟩
  · simp only [isspace, Bool.or_eq_false_iff, decide_eq_false_iff_not, Bool.and_eq_false_iff,
      not_le]
    omega
  · rintro rfl; simp at h
  · rintro rfl; simp at h
  · rintro rfl; simp at h

theorem readSign_digit (c : Char) (t : List Char) (h : isdigit c = true) :
    readSign (c :: t) = (false, c :: t) := by
  obtain ⟨-, h1, h2, -⟩ := isdigit_not_special c h
  unfold readSign
  split
  · rename_i heq; simp only [List.cons.injEq] at heq; exact absurd heq.1 h1
  · rename_i heq; simp only [List.cons.injEq] at heq; exact absurd heq.1 h2
  · rfl

theorem stoi_digits (ds : List Char) (hne : ds ≠ []) (hdig : ∀ c ∈ ds, isdigit c = true)
    (hv : digitsValue ds < 2 ^ 31) : stoi ds = .ok (digitsValue ds : Int) := by
  cases ds with
  | nil => exact absurd rfl hne
  | cons c t =>
    have hc : isdigit c = true := hdig c (List.mem_cons_self _ _)
    have hsp : (c :: t).dropWhile isspace = c :: t := by
      simp [List.dropWhile, (isdigit_not_special c hc).1]
    have htake : (c :: t).takeWhile isdigit = c :: t :=
      List.takeWhile_eq_self_iff.2 hdig
    have hr : ¬ ((digitsValue (c :: t) : Int) < -(2 : Int) ^ 31 ∨
        (2 : Int) ^ 31 - 1 < (digitsValue (c :: t) : Int)) := by
      have : (digitsValue (c :: t) : Int) < 2 ^ 31 := by exact_mod_cast hv
      omega
    simp only [stoi, hsp, readSign_digit c t hc, htake]
    rw [if_neg (by simp)]
    simp only [Bool.false_eq_true, if_false]
    rw [if_neg hr]

theorem readSign_decomp (s : List Char) :
    ∃ sg, (sg = [] ∨ sg = ['+'] ∨ sg = ['-']) ∧ s = sg ++ (readSign s).2 := by
  unfold readSign
  split
  · exact ⟨['-'], Or.inr (Or.inr rfl), rfl⟩
  · exact ⟨['+'], Or.inr (Or.inl rfl), rfl⟩
  · exact ⟨[], Or.inl rfl, rfl⟩

theorem stoi_invalid (t : List Char) (hno : ¬ BeginsWithInteger t) :
    stoi t = .error .invalid_argument := by
  have hds : (readSign (t.dropWhile isspace)).2.takeWhile isdigit = [] := by
    by_contra hne
    apply hno
    obtain ⟨sg, hsg, hdec⟩ := readSign_decomp (t.dropWhile isspace)
    refine ⟨t.takeWhile isspace, sg, (readSign (t.dropWhile isspace)).2.takeWhile isdigit,
      (readSign (t.dropWhile isspace)).2.dropWhile isdigit, ?_,
      fun c hc => List.mem_takeWhile_imp hc, hsg, hne, fun c hc => List.mem_takeWhile_imp hc⟩
    rw [List.append_assoc, List.append_assoc, List.takeWhile_append_dropWhile, ← hdec,
      List.takeWhile_append_dropWhile]
  simp [stoi, hds]

theorem GetGluinoMass_digits (pre ds rest : List Char) (hne : ds ≠ [])
    (hdig : ∀ c ∈ ds, isdigit c = true) (hrest : rest = [] ∨ ∃ r, rest = '_' :: r)
    (hlast : ¬ "_mChi-".toList <:+: rest)
    (hsize : (pre ++ "_mChi-".toList ++ ds ++ rest).length < 2 ^ 64)
    (hv : digitsValue ds + 12 < 2 ^ 31) :
    GetGluinoMass (pre ++ "_mChi-".toList ++ ds ++ rest) =
      .ok (if digitsValue ds = 127 then 127
        else (((digitsValue ds + 12) / 25 * 25 : Nat) : Int)) := by
  rw [GetGluinoMass_extract pre ds rest (fun c hc => (isdigit_not_special c (hdig c hc)).2.2.2)
    hrest ((Contains_false_iff _ _).2 hlast) hsize, stoi_digits ds hne hdig (by omega)]
  have hw : wrap32 ((digitsValue ds : Int) + 12) = (digitsValue ds : Int) + 12 := by
    have : (digitsValue ds : Int) + 12 < 2 ^ 31 := by exact_mod_cast hv
    unfold wrap32
    omega
  by_cases h : digitsValue ds = 127
  · simp [h]
  · have h' : (digitsValue ds : Int) ≠ 127 := by exact_mod_cast h
    simp only [ne_eq, h', not_false_eq_true, if_true, h, if_false, hw]
    rw [Int.tdiv_eq_ediv (by omega) (by omega)]
    push_cast
    rfl

/-- C3 (amended): when the last key `_mChi-` of the identifier is followed by the digits `ds`
of an integer `v` with `v + 12 < 2 ^ 31`, and then by `_` or the end of the string,
`GetGluinoMass` returns `127` if `v = 127` and `(v + 12) / 25 * 25` (truncating division)
otherwise. -/
theorem GetGluinoMass_rounds (pre ds rest : List Char) (hne : ds ≠ [])
    (hdig : ∀ c ∈ ds, isdigit c = true) (hrest : rest = [] ∨ ∃ r, rest = '_' :: r)
    (hlast : ¬ "_mChi-".toList <:+: rest)
    (hsize : (pre ++ "_mChi-".toList ++ ds ++ rest).length < 2 ^ 64)
    (hv : digitsValue ds + 12 < 2 ^ 31) :
    GetGluinoMass (pre ++ "_mChi-".toList ++ ds ++ rest) =
      .ok (if digitsValue ds = 127 then 127
        else (((digitsValue ds + 12) / 25 * 25 : Nat) : Int)) :=
  GetGluinoMass_digits pre ds rest hne hdig hrest hlast hsize hv

theorem GetGluinoMass_rounds_witness :
    GetGluinoMass "SMS-TChiHH_mChi-127_mLSP-1".toList = .ok 127 ∧
    GetGluinoMass "SMS-TChiHH_mChi-113_mLSP-1".toList = .ok 125 ∧
    GetGluinoMass "SMS-TChiHH_mChi-150".toList = .ok 150 :=
  ⟨GetGluinoMass_rounds "SMS-TChiHH".toList "127".toList "_mLSP-1".toList (by decide)
      (by decide) (Or.inr ⟨_, rfl⟩) ((Contains_false_iff _ _).1 (by decide)) (by decide)
      (by decide),
    GetGluinoMass_rounds "SMS-TChiHH".toList "113".toList "_mLSP-1".toList (by decide)
      (by decide) (Or.inr ⟨_, rfl⟩) ((Contains_false_iff _ _).1 (by decide)) (by decide)
      (by decide),
    GetGluinoMass_rounds "SMS-TChiHH".toList "150".toList [] (by decide)
      (by decide) (Or.inl rfl) ((Contains_false_iff _ _).1 (by decide)) (by decide)
      (by decide)⟩

/-- C3 (counterexample): the identifier with `_mChi-113_` gives `125`, not `100`, and the
digits of `2147483648` give no mass at all: `std::stoi` throws `std::out_of_range`. -/
theorem GetGluinoMass_113_and_overflow :
    GetGluinoMass "SMS-TChiHH_mChi-113_mLSP-1".toList = .ok 125 ∧
    GetGluinoMass "SMS-TChiHH_mChi-113_mLSP-1".toList ≠ .ok 100 ∧
    GetGluinoMass "SMS-TChiHH_mChi-2147483648_mLSP-1".toList = .error .out_of_range := by
  decide

/-- C4 (amended): when the text between the last key `_mChi-` and the next `_` (or the end of
the string) does not begin with an integer, `GetGluinoMass` ends with `std::invalid_argument`
and returns no mass. -/
theorem GetGluinoMass_no_integer (pre t rest : List Char) (ht : ∀ c ∈ t, c ≠ '_')
    (hrest : rest = [] ∨ ∃ r, rest = '_' :: r)
    (hlast : ¬ "_mChi-".toList <:+: rest)
    (hsize : (pre ++ "_mChi-".toList ++ t ++ rest).length < 2 ^ 64)
    (hno : ¬ BeginsWithInteger t) :
    GetGluinoMass (pre ++ "_mChi-".toList ++ t ++ rest) = .error .invalid_argument := by
  rw [GetGluinoMass_extract pre t rest ht hrest ((Contains_false_iff _ _).2 hlast) hsize,
    stoi_invalid t hno]

/-- C4 (counterexample): an identifier without the key and an identifier whose text after the
key is `12ab` both give a mass. -/
theorem GetGluinoMass_accepts_bad_identifiers :
    Contains "abcde123_x".toList "_mChi-".toList = false ∧
    GetGluinoMass "abcde123_x".toList = .ok 125 ∧
    GetGluinoMass "SMS-TChiHH_mChi-12ab_mLSP-1".toList = .ok 0 := by
  decide

theorem not_beginsWithInteger_cons (c : Char) (t : List Char) (h1 : isspace c = false)
    (h2 : c ≠ '+') (h3 : c ≠ '-') (h4 : isdigit c = false) :
    ¬ BeginsWithInteger (c :: t) := by
  rintro ⟨ws, sg, ds, tail, heq, hws, hsg, hne, hdig⟩
  cases ws with
  | cons w ws =>
    simp only [List.cons_append, List.cons.injEq] at heq
    have := hws w (List.mem_cons_self _ _)
    rw [← heq.1, h1] at this
    exact Bool.noConfusion this
  | nil =>
    rcases hsg with rfl | rfl | rfl
    · cases ds with
      | nil => exact hne rfl
      | cons d ds =>
        simp only [List.nil_append, List.cons_append, List.cons.injEq] at heq
        have := hdig d (List.mem_cons_self _ _)
        rw [← heq.1, h4] at this
        exact Bool.noConfusion this
    · simp only [List.nil_append, List.cons_append, List.cons.injEq] at heq
      exact h2 heq.1
    · simp only [List.nil_append, List.cons_append, List.cons.injEq] at heq
      exact h3 heq.1

theorem GetGluinoMass_no_integer_witness :
    GetGluinoMass "SMS-TChiHH_mChi-abc_mLSP-1".toList = .error .invalid_argument :=
  GetGluinoMass_no_integer "SMS-TChiHH".toList "abc".toList "_mLSP-1".toList (by decide)
    (Or.inr ⟨_, rfl⟩) ((Contains_false_iff _ _).1 (by decide)) (by decide)
    (not_beginsWithInteger_cons 'a' _ (by decide) (by decide) (by decide) (by decide))

/-- C5: the year is 2016 when the first input path contains `RunIISummer16` (also when it
contains `RunIIFall17` as well), otherwise 2017 when it contains `RunIIFall17`, otherwise 2018;
it is always one of the three. -/
theorem main_year_cases (first_input : List Char) :
    ("RunIISummer16".toList <:+: first_input → main_year first_input = 2016) ∧
    (¬ "RunIISummer16".toList <:+: first_input → "RunIIFall17".toList <:+: first_input →
      main_year first_input = 2017) ∧
    (¬ "RunIISummer16".toList <:+: first_input → ¬ "RunIIFall17".toList <:+: first_input →
      main_year first_input = 2018) ∧
    (main_year first_input = 2016 ∨ main_year first_input = 2017 ∨
      main_year first_input = 2018) := by
  refine ⟨fun h => ?_, fun h1 h2 => ?_, fun h1 h2 => ?_, ?_⟩
  · unfold main_year
    rw [if_pos ((Contains_iff_sublist_at _ _).2 h)]
  · have n1 : ¬ Contains first_input "RunIISummer16".toList = true := by
      rw [(Contains_false_iff _ _).2 h1]; exact Bool.false_ne_true
    unfold main_year
    rw [if_neg n1, if_pos ((Contains_iff_sublist_at _ _).2 h2)]
  · have n1 : ¬ Contains first_input "RunIISummer16".toList = true := by
      rw [(Contains_false_iff _ _).2 h1]; exact Bool.false_ne_true
    have n2 : ¬ Contains first_input "RunIIFall17".toList = true := by
      rw [(Contains_false_iff _ _).2 h2]; exact Bool.false_ne_true
    unfold main_year
    rw [if_neg n1, if_neg n2]
  · unfold main_year
    split
    · exact Or.inl rfl
    · split
      · exact Or.inr (Or.inl rfl)
      · exact Or.inr (Or.inr rfl)

theorem main_year_cases_witness :
    main_year "/store/RunIIFall17/RunIISummer16/wgt_sums.root".toList = 2016 ∧
    main_year "/store/RunIIFall17/wgt_sums.root".toList = 2017 ∧
    main_year "/store/RunIIAutumn18/wgt_sums.root".toList = 2018 :=
  ⟨(main_year_cases "/store/RunIIFall17/RunIISummer16/wgt_sums.root".toList).1
      ((Contains_iff_sublist_at _ _).1 (by decide)),
    (main_year_cases "/store/RunIIFall17/wgt_sums.root".toList).2.1
      ((Contains_false_iff _ _).1 (by decide)) ((Contains_iff_sublist_at _ _).1 (by decide)),
    (main_year_cases "/store/RunIIAutumn18/wgt_sums.root".toList).2.2.1
      ((Contains_false_iff _ _).1 (by decide)) ((Contains_false_iff _ _).1 (by decide))⟩

/-! ## Correction pipeline: proofs -/

theorem short_list_cases (v : List ℚ) (h : v.length ≤ 2) :
    v = [] ∨ (∃ a, v = [a]) ∨ ∃ a b, v = [a, b] := by
  match v, h with
  | [], _ => exact Or.inl rfl
  | [a], _ => exact Or.inr (Or.inl ⟨a, rfl⟩)
  | [a, b], _ => exact Or.inr (Or.inr ⟨a, b, rfl⟩)
  | _ :: _ :: _ :: _, h => simp at h

theorem copySysIsr_short (w0 w1 : ℚ) (v : List ℚ) (h : v.length ≤ 2) :
    copySysIsr [w0, w1] (List.range v.length) v = .ok ([w0, w1].take v.length) := by
  rcases short_list_cases v h with rfl | ⟨a, rfl⟩ | ⟨a, b, rfl⟩
  · rfl
  · rfl
  · rfl

theorem deriveSysIsr_short (nent : ℚ) (v : List ℚ) (h : v.length ≤ 2) :
    ∃ w0 w1, deriveSysIsr nent v (List.range v.length) [1, 1] = .ok [w0, w1] ∧
      [w0, w1].take v.length = v.map (fun x => if x = 0 then 1 else nent / x) := by
  rcases short_list_cases v h with rfl | ⟨a, rfl⟩ | ⟨a, b, rfl⟩
  · exact ⟨1, 1, rfl, rfl⟩
  · refine ⟨if a = 0 then 1 else nent / a, 1, ?_, by simp⟩
    have hr : List.range [a].length = [0] := rfl
    rw [hr]
    by_cases ha : a = 0 <;> simp [deriveSysIsr, writeIdx, ha]
  · refine ⟨if a = 0 then 1 else nent / a, if b = 0 then 1 else nent / b, ?_, by simp⟩
    have hr : List.range [a, b].length = [0, 1] := rfl
    rw [hr]
    by_cases ha : a = 0 <;> by_cases hb : b = 0 <;> simp [deriveSysIsr, writeIdx, ha, hb]

theorem FixISR_of_isrCorrection (corr : corrections_tree) (corr_path : List Char) (year : Int)
    (W w0 w1 : ℚ) (hcorr : isrCorrection corr corr_path = .ok (W, [w0, w1]))
    (h : corr.out_sys_isr.length ≤ 2) :
    FixISR corr corr_path year = .ok { corr with
      out_w_isr := W
      out_sys_isr := [w0, w1].take corr.out_sys_isr.length
      out_weight :=
        if year = 2016 then
          (corr.out_w_isr * W) /
            (corr.out_tot_weight_l0 * w_corr_l0 corr + corr.out_tot_weight_l1)
        else
          corr.out_nent / (corr.out_tot_weight_l0 * w_corr_l0 corr + corr.out_tot_weight_l1) } := by
  simp only [FixISR, hcorr, copySysIsr_short w0 w1 _ h]

theorem isrCorrection_inclusive (corr : corrections_tree) (corr_path : List Char)
    (h : (Contains corr_path "TTJets_HT".toList || Contains corr_path "genMET-150".toList)
      = true) :
    isrCorrection corr corr_path =
      .ok (if Contains corr_path "TTJets_DiLept".toList = true
        then (1 / 0.997, [1 / 1.057, 1 / 0.938]) else (1 / 1.017, [1 / 1.067, 1 / 0.967])) := by
  unfold isrCorrection
  rw [if_pos h]
  split <;> rfl

theorem isrCorrection_derived (corr : corrections_tree) (corr_path : List Char)
    (h : (Contains corr_path "TTJets_HT".toList || Contains corr_path "genMET-150".toList)
      = false) (hlen : corr.out_sys_isr.length ≤ 2) :
    ∃ w0 w1, isrCorrection corr corr_path =
        .ok (if corr.out_w_isr = 0 then 1 else corr.out_nent / corr.out_w_isr, [w0, w1]) ∧
      [w0, w1].take corr.out_sys_isr.length =
        corr.out_sys_isr.map (fun x => if x = 0 then 1 else corr.out_nent / x) := by
  obtain ⟨w0, w1, hd, ht⟩ := deriveSysIsr_short corr.out_nent corr.out_sys_isr hlen
  refine ⟨w0, w1, ?_, ht⟩
  unfold isrCorrection
  rw [if_neg (by rw [h]; exact Bool.false_ne_true), hd]
  by_cases hw : corr.out_w_isr = 0 <;> simp [hw]

theorem isrCorrection_short (corr : corrections_tree) (corr_path : List Char)
    (hlen : corr.out_sys_isr.length ≤ 2) :
    ∃ W w0 w1, isrCorrection corr corr_path = .ok (W, [w0, w1]) := by
  cases h : (Contains corr_path "TTJets_HT".toList || Contains corr_path "genMET-150".toList)
  · obtain ⟨w0, w1, he, -⟩ := isrCorrection_derived corr corr_path h hlen
    exact ⟨_, w0, w1, he⟩
  · rw [isrCorrection_inclusive corr corr_path h]
    split
    · exact ⟨_, _, _, rfl⟩
    · exact ⟨_, _, _, rfl⟩

theorem w_corr_l0_eq (corr : corrections_tree) :
    w_corr_l0 corr = if corr.out_nent_zlep = 0 then 1 else
      (if corr.out_w_lep = 0 then 1
        else (corr.out_nent - corr.out_w_lep) / corr.out_nent_zlep) *
      (if corr.out_w_fs_lep = 0 then 1
        else (corr.out_nent - corr.out_w_fs_lep) / corr.out_nent_zlep) := by
  unfold w_corr_l0
  by_cases hz : corr.out_nent_zlep = 0
  · simp [hz]
  · by_cases h1 : corr.out_w_lep = 0 <;> by_cases h2 : corr.out_w_fs_lep = 0 <;>
      simp [hz, h1, h2]

theorem FixISR_ok_weight (corr : corrections_tree) (corr_path : List Char) (year : Int)
    (c : corrections_tree) (h : FixISR corr corr_path year = .ok c) :
    c.out_weight = (if year = 2016 then corr.out_w_isr * c.out_w_isr else corr.out_nent) /
      (corr.out_tot_weight_l0 * w_corr_l0 corr + corr.out_tot_weight_l1) := by
  unfold FixISR at h
  split at h
  · exact Except.noConfusion h
  · split at h
    · exact Except.noConfusion h
    · cases h
      by_cases hy : year = 2016 <;> simp [hy]

/-- C6: `FixISR` returns an accumulator whenever `sys_isr` has at most the two elements of the
correction pair, and whenever it returns one the weight is `N / (tot_weight_l0 * c +
tot_weight_l1)`, with `N` the product of the `w_isr` sum held before and the `w_isr` written
when the year is 2016 and `nent` otherwise, and with `c` equal to `1` when `nent_zlep = 0` and
otherwise the product of `(nent - w_lep) / nent_zlep` (taken when the `w_lep` sum is nonzero)
and `(nent - w_fs_lep) / nent_zlep` (taken when the `w_fs_lep` sum is nonzero). -/
theorem FixISR_weight (corr : corrections_tree) (corr_path : List Char) (year : Int) :
    (corr.out_sys_isr.length ≤ 2 → ∃ c, FixISR corr corr_path year = .ok c) ∧
    ∀ c, FixISR corr corr_path year = .ok c →
      c.out_weight = (if year = 2016 then corr.out_w_isr * c.out_w_isr else corr.out_nent) /
        (corr.out_tot_weight_l0 *
          (if corr.out_nent_zlep = 0 then 1 else
            (if corr.out_w_lep = 0 then 1
              else (corr.out_nent - corr.out_w_lep) / corr.out_nent_zlep) *
            (if corr.out_w_fs_lep = 0 then 1
              else (corr.out_nent - corr.out_w_fs_lep) / corr.out_nent_zlep))
          + corr.out_tot_weight_l1) := by
  refine ⟨fun hlen => ?_, fun c h => ?_⟩
  · obtain ⟨W, w0, w1, he⟩ := isrCorrection_short corr corr_path hlen
    exact ⟨_, FixISR_of_isrCorrection corr corr_path year W w0 w1 he hlen⟩
  · rw [FixISR_ok_weight corr corr_path year c h, w_corr_l0_eq]

theorem FixISR_weight_witness :
    isrExample.out_sys_isr.length ≤ 2 ∧
    ∃ c, FixISR isrExample "TTJets_SingleLept".toList 2016 = .ok c ∧
      c.out_w_isr = 2 ∧ c.out_weight = 200 / 15 := by
  have hlen : isrExample.out_sys_isr.length ≤ 2 := by simp [isrExample]
  obtain ⟨c, hc⟩ := (FixISR_weight isrExample "TTJets_SingleLept".toList 2016).1 hlen
  have hw := (FixISR_weight isrExample "TTJets_SingleLept".toList 2016).2 c hc
  have hisr : c.out_w_isr = 2 := by
    obtain ⟨w0, w1, he, -⟩ := isrCorrection_derived isrExample "TTJets_SingleLept".toList
      (by decide) hlen
    rw [FixISR_of_isrCorrection _ _ _ _ w0 w1 he hlen] at hc
    cases hc
    norm_num [isrExample]
  refine ⟨hlen, c, hc, hisr, ?_⟩
  rw [hw, hisr]
  norm_num [isrExample, freshTree]

theorem getD_map_lt (f : ℚ → ℚ) : ∀ (v : List ℚ) (i : Nat), i < v.length →
    (v.map f).getD i 0 = f (v.getD i 0)
  | [], _, h => by simp at h
  | _ :: _, 0, _ => by simp
  | _ :: v, i + 1, h => by
    have ih := getD_map_lt f v i (by simpa using h)
    simpa using ih

theorem FixISR_derived (corr : corrections_tree) (corr_path : List Char) (year : Int)
    (h1 : ¬ "TTJets_HT".toList <:+: corr_path) (h2 : ¬ "genMET-150".toList <:+: corr_path)
    (hlen : corr.out_sys_isr.length ≤ 2) :
    ∃ c, FixISR corr corr_path year = .ok c ∧
      c.out_w_isr = (if corr.out_w_isr = 0 then 1 else corr.out_nent / corr.out_w_isr) ∧
      c.out_sys_isr = corr.out_sys_isr.map (fun x => if x = 0 then 1 else corr.out_nent / x) := by
  have hb : (Contains corr_path "TTJets_HT".toList || Contains corr_path "genMET-150".toList)
      = false := by
    rw [(Contains_false_iff _ _).2 h1, (Contains_false_iff _ _).2 h2]; rfl
  obtain ⟨w0, w1, he, ht⟩ := isrCorrection_derived corr corr_path hb hlen
  exact ⟨_, FixISR_of_isrCorrection corr corr_path year _ w0 w1 he hlen, rfl, ht⟩

/-- C7 (failing input): with three elements in `sys_isr` and an identifier of neither inclusive
family, `FixISR` writes `corr_sys_isr[2]` in a vector of two elements and has no result. -/
theorem FixISR_three_elements :
    ¬ "TTJets_HT".toList <:+: "TTJets_SingleLept".toList ∧
    ¬ "genMET-150".toList <:+: "TTJets_SingleLept".toList ∧
    isrThree.out_sys_isr.length = 3 ∧
    FixISR isrThree "TTJets_SingleLept".toList 2018 = .error .index_past_end := by
  refine ⟨(Contains_false_iff _ _).1 (by decide), (Contains_false_iff _ _).1 (by decide),
    rfl, ?_⟩
  have hb : (Contains "TTJets_SingleLept".toList "TTJets_HT".toList ||
      Contains "TTJets_SingleLept".toList "genMET-150".toList) = false := by decide
  have hr : List.range isrThree.out_sys_isr.length = [0, 1, 2] := rfl
  have hd : deriveSysIsr isrThree.out_nent isrThree.out_sys_isr [0, 1, 2] [1, 1] =
      .error .index_past_end := by
    simp [deriveSysIsr, writeIdx]
  have hi : isrCorrection isrThree "TTJets_SingleLept".toList = .error .index_past_end := by
    unfold isrCorrection
    rw [if_neg (by rw [hb]; exact Bool.false_ne_true), hr, hd]
  simp only [FixISR, hi]

/-- C8: for an identifier with `TTJets_HT` or `genMET-150` and a `sys_isr` of two elements,
`FixISR` returns an accumulator whose `w_isr` and `sys_isr` are the constants
`1/0.997, 1/1.057, 1/0.938` when the identifier has `TTJets_DiLept` and
`1/1.017, 1/1.067, 1/0.967` otherwise, whatever the sums are. -/
theorem FixISR_inclusive (corr : corrections_tree) (corr_path : List Char) (year : Int)
    (hfam : "TTJets_HT".toList <:+: corr_path ∨ "genMET-150".toList <:+: corr_path)
    (hlen : corr.out_sys_isr.length = 2) :
    ∃ c, FixISR corr corr_path year = .ok c ∧
      ("TTJets_DiLept".toList <:+: corr_path →
        c.out_w_isr = 1 / 0.997 ∧ c.out_sys_isr = [1 / 1.057, 1 / 0.938]) ∧
      (¬ "TTJets_DiLept".toList <:+: corr_path →
        c.out_w_isr = 1 / 1.017 ∧ c.out_sys_isr = [1 / 1.067, 1 / 0.967]) := by
  have hb : (Contains corr_path "TTJets_HT".toList || Contains corr_path "genMET-150".toList)
      = true := by
    rcases hfam with h | h
    · rw [(Contains_iff_sublist_at _ _).2 h]; rfl
    · rw [(Contains_iff_sublist_at _ _).2 h, Bool.or_true]
  have hi := isrCorrection_inclusive corr corr_path hb
  by_cases hd : "TTJets_DiLept".toList <:+: corr_path
  · rw [if_pos ((Contains_iff_sublist_at _ _).2 hd)] at hi
    refine ⟨_, FixISR_of_isrCorrection corr corr_path year _ _ _ hi (le_of_eq hlen),
      fun _ => ⟨rfl, ?_⟩, fun hn => absurd hd hn⟩
    simp [hlen]
  · have hn : ¬ Contains corr_path "TTJets_DiLept".toList = true := by
      rw [(Contains_false_iff _ _).2 hd]; exact Bool.false_ne_true
    rw [if_neg hn] at hi
    refine ⟨_, FixISR_of_isrCorrection corr corr_path year _ _ _ hi (le_of_eq hlen),
      fun h => absurd h hd, fun _ => ⟨rfl, ?_⟩⟩
    simp [hlen]

theorem FixISR_inclusive_witness :
    (∃ c, FixISR isrExample "TTJets_DiLept_genMET-150".toList 2017 = .ok c ∧
      c.out_w_isr = 1 / 0.997 ∧ c.out_sys_isr = [1 / 1.057, 1 / 0.938]) ∧
    ∃ c, FixISR isrExample "TTJets_HT-600to800".toList 2016 = .ok c ∧
      c.out_w_isr = 1 / 1.017 ∧ c.out_sys_isr = [1 / 1.067, 1 / 0.967] := by
  obtain ⟨c1, h1, hd1, -⟩ := FixISR_inclusive isrExample "TTJets_DiLept_genMET-150".toList 2017
    (Or.inr ((Contains_iff_sublist_at _ _).1 (by decide))) rfl
  obtain ⟨c2, h2, -, hd2⟩ := FixISR_inclusive isrExample "TTJets_HT-600to800".toList 2016
    (Or.inl ((Contains_iff_sublist_at _ _).1 (by decide))) rfl
  exact ⟨⟨c1, h1, hd1 ((Contains_iff_sublist_at _ _).1 (by decide))⟩,
    ⟨c2, h2, hd2 ((Contains_false_iff _ _).1 (by decide))⟩⟩

theorem fix0L_eq (nent nent_zlep x : ℚ) :
    fix0L nent nent_zlep x = if x = 0 then 1 else (nent - x) / nent_zlep := by
  unfold fix0L
  by_cases h : x = 0 <;> simp [h]

/-- C9: after `Fix0L`, `w_lep` is `1` if the sum before the stage is `0` and
`(nent - w_lep) / nent_zlep` otherwise, the same for `w_fs_lep` and for every element of
`sys_lep` and `sys_fs_lep`; a value that is `0` before the stage is `1` after it whatever
`nent` and `nent_zlep` are, so the quotient by `nent_zlep` plays no part. -/
theorem Fix0L_rule (corr : corrections_tree) :
    (Fix0L corr).out_w_lep = (if corr.out_w_lep = 0 then 1
      else (corr.out_nent - corr.out_w_lep) / corr.out_nent_zlep) ∧
    (Fix0L corr).out_w_fs_lep = (if corr.out_w_fs_lep = 0 then 1
      else (corr.out_nent - corr.out_w_fs_lep) / corr.out_nent_zlep) ∧
    (Fix0L corr).out_sys_lep.length = corr.out_sys_lep.length ∧
    (∀ i, i < corr.out_sys_lep.length →
      (Fix0L corr).out_sys_lep.getD i 0 = if corr.out_sys_lep.getD i 0 = 0 then 1
        else (corr.out_nent - corr.out_sys_lep.getD i 0) / corr.out_nent_zlep) ∧
    (Fix0L corr).out_sys_fs_lep.length = corr.out_sys_fs_lep.length ∧
    (∀ i, i < corr.out_sys_fs_lep.length →
      (Fix0L corr).out_sys_fs_lep.getD i 0 = if corr.out_sys_fs_lep.getD i 0 = 0 then 1
        else (corr.out_nent - corr.out_sys_fs_lep.getD i 0) / corr.out_nent_zlep) ∧
    (corr.out_w_lep = 0 → (Fix0L corr).out_w_lep = 1) ∧
    (corr.out_w_fs_lep = 0 → (Fix0L corr).out_w_fs_lep = 1) ∧
    (∀ i, i < corr.out_sys_lep.length → corr.out_sys_lep.getD i 0 = 0 →
      (Fix0L corr).out_sys_lep.getD i 0 = 1) ∧
    (∀ i, i < corr.out_sys_fs_lep.length → corr.out_sys_fs_lep.getD i 0 = 0 →
      (Fix0L corr).out_sys_fs_lep.getD i 0 = 1) := by
  have e1 : (Fix0L corr).out_w_lep = (if corr.out_w_lep = 0 then 1
      else (corr.out_nent - corr.out_w_lep) / corr.out_nent_zlep) := fix0L_eq _ _ _
  have e2 : (Fix0L corr).out_w_fs_lep = (if corr.out_w_fs_lep = 0 then 1
      else (corr.out_nent - corr.out_w_fs_lep) / corr.out_nent_zlep) := fix0L_eq _ _ _
  have e3 : ∀ i, i < corr.out_sys_lep.length →
      (Fix0L corr).out_sys_lep.getD i 0 = if corr.out_sys_lep.getD i 0 = 0 then 1
        else (corr.out_nent - corr.out_sys_lep.getD i 0) / corr.out_nent_zlep := by
    intro i hi
    exact (getD_map_lt _ _ i hi).trans (fix0L_eq _ _ _)
  have e4 : ∀ i, i < corr.out_sys_fs_lep.length →
      (Fix0L corr).out_sys_fs_lep.getD i 0 = if corr.out_sys_fs_lep.getD i 0 = 0 then 1
        else (corr.out_nent - corr.out_sys_fs_lep.getD i 0) / corr.out_nent_zlep := by
    intro i hi
    exact (getD_map_lt _ _ i hi).trans (fix0L_eq _ _ _)
  refine ⟨e1, e2, by simp [Fix0L], e3, by simp [Fix0L], e4, fun h => ?_, fun h => ?_,
    fun i hi h => ?_, fun i hi h => ?_⟩
  · rw [e1, if_pos h]
  · rw [e2, if_pos h]
  · rw [e3 i hi, if_pos h]
  · rw [e4 i hi, if_pos h]

theorem Fix0L_rule_witness :
    stageExample.out_nent_zlep = 0 ∧ (Fix0L stageExample).out_w_lep = 1 ∧
    (Fix0L stageExample).out_w_fs_lep = 1 ∧ (Fix0L stageExample).out_sys_lep.getD 1 0 = 1 ∧
    (Fix0L stageExample).out_sys_fs_lep.getD 0 0 = 1 :=
  ⟨rfl, (Fix0L_rule stageExample).2.2.2.2.2.2.1 rfl,
    (Fix0L_rule stageExample).2.2.2.2.2.2.2.1 rfl,
    (Fix0L_rule stageExample).2.2.2.2.2.2.2.2.1 1 (by decide) rfl,
    (Fix0L_rule stageExample).2.2.2.2.2.2.2.2.2 0 (by decide) rfl⟩

theorem Normalize_eq (x nent : ℚ) : Normalize x nent = if x = 0 then 1 else nent / x := by
  unfold Normalize
  by_cases h : x = 0 <;> simp [h]

theorem Normalize_vector_spec (v : List ℚ) (nent : ℚ) :
    (Normalize_vector v nent).length = v.length ∧
    ∀ i, i < v.length →
      (Normalize_vector v nent).getD i 0 = if v.getD i 0 = 0 then 1 else nent / v.getD i 0 := by
  refine ⟨by simp [Normalize_vector], fun i hi => ?_⟩
  rw [Normalize_vector, getD_map_lt _ _ i hi]
  by_cases h : v.getD i 0 = 0 <;> simp [h]

/-- C10: after the stage `Normalize`, each of `w_btag`, `w_btag_df`, `w_bhig`, `w_bhig_df`,
`w_pu` and every element of `sys_bchig`, `sys_udsghig`, `sys_fs_bchig`, `sys_fs_udsghig`,
`sys_pu` is `1` if its value `x` before the stage is `0` and `nent / x` otherwise. -/
theorem Normalize_corr_rule (corr : corrections_tree) :
    (Normalize_corr corr).out_w_btag =
      (if corr.out_w_btag = 0 then 1 else corr.out_nent / corr.out_w_btag) ∧
    (Normalize_corr corr).out_w_btag_df =
      (if corr.out_w_btag_df = 0 then 1 else corr.out_nent / corr.out_w_btag_df) ∧
    (Normalize_corr corr).out_w_bhig =
      (if corr.out_w_bhig = 0 then 1 else corr.out_nent / corr.out_w_bhig) ∧
    (Normalize_corr corr).out_w_bhig_df =
      (if corr.out_w_bhig_df = 0 then 1 else corr.out_nent / corr.out_w_bhig_df) ∧
    (Normalize_corr corr).out_w_pu =
      (if corr.out_w_pu = 0 then 1 else corr.out_nent / corr.out_w_pu) ∧
    ((Normalize_corr corr).out_sys_bchig.length = corr.out_sys_bchig.length ∧
      ∀ i, i < corr.out_sys_bchig.length → (Normalize_corr corr).out_sys_bchig.getD i 0 =
        if corr.out_sys_bchig.getD i 0 = 0 then 1
          else corr.out_nent / corr.out_sys_bchig.getD i 0) ∧
    ((Normalize_corr corr).out_sys_udsghig.length = corr.out_sys_udsghig.length ∧
      ∀ i, i < corr.out_sys_udsghig.length → (Normalize_corr corr).out_sys_udsghig.getD i 0 =
        if corr.out_sys_udsghig.getD i 0 = 0 then 1
          else corr.out_nent / corr.out_sys_udsghig.getD i 0) ∧
    ((Normalize_corr corr).out_sys_fs_bchig.length = corr.out_sys_fs_bchig.length ∧
      ∀ i, i < corr.out_sys_fs_bchig.length → (Normalize_corr corr).out_sys_fs_bchig.getD i 0 =
        if corr.out_sys_fs_bchig.getD i 0 = 0 then 1
          else corr.out_nent / corr.out_sys_fs_bchig.getD i 0) ∧
    ((Normalize_corr corr).out_sys_fs_udsghig.length = corr.out_sys_fs_udsghig.length ∧
      ∀ i, i < corr.out_sys_fs_udsghig.length →
        (Normalize_corr corr).out_sys_fs_udsghig.getD i 0 =
          if corr.out_sys_fs_udsghig.getD i 0 = 0 then 1
            else corr.out_nent / corr.out_sys_fs_udsghig.getD i 0) ∧
    ((Normalize_corr corr).out_sys_pu.length = corr.out_sys_pu.length ∧
      ∀ i, i < corr.out_sys_pu.length → (Normalize_corr corr).out_sys_pu.getD i 0 =
        if corr.out_sys_pu.getD i 0 = 0 then 1
          else corr.out_nent / corr.out_sys_pu.getD i 0) :=
  ⟨Normalize_eq _ _, Normalize_eq _ _, Normalize_eq _ _, Normalize_eq _ _, Normalize_eq _ _,
    Normalize_vector_spec _ _, Normalize_vector_spec _ _, Normalize_vector_spec _ _,
    Normalize_vector_spec _ _, Normalize_vector_spec _ _⟩

theorem Normalize_corr_rule_witness :
    (Normalize_corr stageExample).out_sys_bchig.getD 0 0 = 2 ∧
    (Normalize_corr stageExample).out_sys_bchig.getD 1 0 = 1 ∧
    (Normalize_corr stageExample).out_sys_pu.getD 0 0 = 1 := by
  have h := Normalize_corr_rule stageExample
  refine ⟨?_, ?_, ?_⟩
  · rw [h.2.2.2.2.2.1.2 0 (by decide)]; norm_num [stageExample]
  · rw [h.2.2.2.2.2.1.2 1 (by decide)]; norm_num [stageExample]
  · rw [h.2.2.2.2.2.2.2.2.2.2 0 (by decide)]; norm_num [stageExample]

/-! ## Frame properties -/

theorem FixISR_ok_frame (corr : corrections_tree) (corr_path : List Char) (year : Int)
    (c : corrections_tree) (h : FixISR corr corr_path year = .ok c) :
    c = { corr with
      out_w_isr := c.out_w_isr, out_sys_isr := c.out_sys_isr, out_weight := c.out_weight } := by
  unfold FixISR at h
  split at h
  · exact Except.noConfusion h
  · split at h
    · exact Except.noConfusion h
    · cases h
      rfl

theorem AddEntry_ok_prefire (r : WeightRecord) (corr c : corrections_tree)
    (h : AddEntry r corr = .ok c) : c.out_w_prefire = corr.out_w_prefire := by
  rcases VecAdd_cases r.sys_lep corr.out_sys_lep with ⟨-, e1⟩ | ⟨-, t1, e1⟩
  · simp [AddEntry, bind, Except.bind, e1] at h
  rcases VecAdd_cases r.sys_fs_lep corr.out_sys_fs_lep with ⟨-, e2⟩ | ⟨-, t2, e2⟩
  · simp [AddEntry, bind, Except.bind, e1, e2] at h
  rcases VecAdd_cases r.sys_bchig corr.out_sys_bchig with ⟨-, e3⟩ | ⟨-, t3, e3⟩
  · simp [AddEntry, bind, Except.bind, e1, e2, e3] at h
  rcases VecAdd_cases r.sys_udsghig corr.out_sys_udsghig with ⟨-, e4⟩ | ⟨-, t4, e4⟩
  · simp [AddEntry, bind, Except.bind, e1, e2, e3, e4] at h
  rcases VecAdd_cases r.sys_fs_bchig corr.out_sys_fs_bchig with ⟨-, e5⟩ | ⟨-, t5, e5⟩
  · simp [AddEntry, bind, Except.bind, e1, e2, e3, e4, e5] at h
  rcases VecAdd_cases r.sys_fs_udsghig corr.out_sys_fs_udsghig with ⟨-, e6⟩ | ⟨-, t6, e6⟩
  · simp [AddEntry, bind, Except.bind, e1, e2, e3, e4, e5, e6] at h
  rcases VecAdd_cases r.sys_isr corr.out_sys_isr with ⟨-, e7⟩ | ⟨-, t7, e7⟩
  · simp [AddEntry, bind, Except.bind, e1, e2, e3, e4, e5, e6, e7] at h
  rcases VecAdd_cases r.sys_pu corr.out_sys_pu with ⟨-, e8⟩ | ⟨-, t8, e8⟩
  · simp [AddEntry, bind, Except.bind, e1, e2, e3, e4, e5, e6, e7, e8] at h
  simp only [AddEntry, bind, Except.bind, pure, Except.pure, e1, e2, e3, e4, e5, e6, e7, e8,
    Except.ok.injEq] at h
  rw [← h]

theorem FixLumi_ok_frame (xs : CrossSections) (corr : corrections_tree)
    (corr_path : List Char) (year : Int) (c : corrections_tree)
    (h : FixLumi xs corr corr_path year = .ok c) :
    c = { corr with out_w_lumi := c.out_w_lumi } := by
  unfold FixLumi at h
  split at h
  · split at h
    · exact Except.noConfusion h
    · cases h
      rfl
  · cases h
    rfl

theorem FixLumi_plain (xs : CrossSections) (corr : corrections_tree) (corr_path : List Char)
    (year : Int) (h : Contains corr_path "SMS-TChi".toList = false) :
    FixLumi xs corr corr_path year = .ok { corr with
      out_w_lumi := xs.crossSection corr_path (decide (year = 2016)) * 1000 / corr.out_neff } := by
  unfold FixLumi
  rw [if_neg (by rw [h]; exact Bool.false_ne_true)]

theorem FixLumi_higgsino (xs : CrossSections) (corr : corrections_tree)
    (corr_path : List Char) (year : Int) (mglu : Int)
    (h : Contains corr_path "SMS-TChi".toList = true) (hm : GetGluinoMass corr_path = .ok mglu) :
    FixLumi xs corr corr_path year = .ok { corr with
      out_w_lumi := (xs.higgsinoCrossSection mglu).1 * 1000 / corr.out_neff } := by
  unfold FixLumi
  rw [if_pos h, hm]

theorem FixLumi_no_mass (xs : CrossSections) (corr : corrections_tree)
    (corr_path : List Char) (year : Int) (e : Fault)
    (h : Contains corr_path "SMS-TChi".toList = true)
    (hm : GetGluinoMass corr_path = .error e) :
    FixLumi xs corr corr_path year = .error e := by
  unfold FixLumi
  rw [if_pos h, hm]

/-- C11: the stage `Normalize` leaves `weight`, `w_lep`, `w_fs_lep`, `w_isr`, `sys_isr`,
`sys_lep`, `sys_fs_lep`, `w_lumi`, `w_prefire`, `neff`, `nent`, `nent_zlep`, `tot_weight_l0`
and `tot_weight_l1` as they are, and `w_prefire` is the same after `Initialize`, `AddEntry`,
`FixLumi`, `FixISR`, `Fix0L` and `Normalize` as before. -/
theorem Normalize_frame_and_w_prefire (corr : corrections_tree) :
    ((Normalize_corr corr).out_weight = corr.out_weight ∧
      (Normalize_corr corr).out_w_lep = corr.out_w_lep ∧
      (Normalize_corr corr).out_w_fs_lep = corr.out_w_fs_lep ∧
      (Normalize_corr corr).out_w_isr = corr.out_w_isr ∧
      (Normalize_corr corr).out_sys_isr = corr.out_sys_isr ∧
      (Normalize_corr corr).out_sys_lep = corr.out_sys_lep ∧
      (Normalize_corr corr).out_sys_fs_lep = corr.out_sys_fs_lep ∧
      (Normalize_corr corr).out_w_lumi = corr.out_w_lumi ∧
      (Normalize_corr corr).out_w_prefire = corr.out_w_prefire ∧
      (Normalize_corr corr).out_neff = corr.out_neff ∧
      (Normalize_corr corr).out_nent = corr.out_nent ∧
      (Normalize_corr corr).out_nent_zlep = corr.out_nent_zlep ∧
      (Normalize_corr corr).out_tot_weight_l0 = corr.out_tot_weight_l0 ∧
      (Normalize_corr corr).out_tot_weight_l1 = corr.out_tot_weight_l1) ∧
    (∀ r, (Initialize r corr).out_w_prefire = corr.out_w_prefire) ∧
    (∀ r c, AddEntry r corr = .ok c → c.out_w_prefire = corr.out_w_prefire) ∧
    (∀ xs corr_path year c, FixLumi xs corr corr_path year = .ok c →
      c.out_w_prefire = corr.out_w_prefire) ∧
    (∀ corr_path year c, FixISR corr corr_path year = .ok c →
      c.out_w_prefire = corr.out_w_prefire) ∧
    (Fix0L corr).out_w_prefire = corr.out_w_prefire := by
  refine ⟨⟨rfl, rfl, rfl, rfl, rfl, rfl, rfl, rfl, rfl, rfl, rfl, rfl, rfl, rfl⟩,
    fun _ => rfl, fun r c h => AddEntry_ok_prefire r corr c h, fun xs p y c h => ?_,
    fun p y c h => ?_, rfl⟩
  · rw [FixLumi_ok_frame xs corr p y c h]
  · rw [FixISR_ok_frame corr p y c h]

theorem Normalize_frame_and_w_prefire_witness :
    (∃ c, AddEntry (uniformRecord 1 [5, 6]) (shapedTree [10, 20]) = .ok c ∧
      c.out_w_prefire = 1) ∧
    (∃ c, FixLumi exampleXs lumiExample "TTJets_SingleLept".toList 2016 = .ok c ∧
      c.out_w_prefire = 1) ∧
    ∃ c, FixISR isrExample "TTJets_SingleLept".toList 2016 = .ok c ∧ c.out_w_prefire = 1 := by
  have ha : AddEntry (uniformRecord 1 [5, 6]) (shapedTree [10, 20]) =
      .ok (addPure (shapedTree [10, 20]) (uniformRecord 1 [5, 6])) :=
    AddEntry_eq_addPure _ (uniformRecord 1 [5, 6]) _ ⟨rfl, rfl, rfl, rfl, rfl, rfl, rfl, rfl⟩
      ⟨rfl, rfl, rfl, rfl, rfl, rfl, rfl, rfl⟩
  have hl := FixLumi_plain exampleXs lumiExample "TTJets_SingleLept".toList 2016 (by decide)
  obtain ⟨W, w0, w1, he⟩ := isrCorrection_short isrExample "TTJets_SingleLept".toList
    (by simp [isrExample])
  have hi := FixISR_of_isrCorrection isrExample "TTJets_SingleLept".toList 2016 W w0 w1 he
    (by simp [isrExample])
  exact ⟨⟨_, ha, ((Normalize_frame_and_w_prefire _).2.2.1 _ _ ha).trans rfl⟩,
    ⟨_, hl, ((Normalize_frame_and_w_prefire _).2.2.2.1 _ _ _ _ hl).trans rfl⟩,
    ⟨_, hi, ((Normalize_frame_and_w_prefire _).2.2.2.2.1 _ _ _ hi).trans rfl⟩⟩

/-! ## Stage 1 and the pipeline as a whole -/

/-- C12: with `neff` nonzero, `FixLumi` returns the accumulator with `w_lumi` replaced by
`xsec * 1000 / neff` and every other field as it was, where `xsec` is
`crossSection(identifier, year = 2016)` when the identifier does not contain `SMS-TChi`, and
the first result of `higgsinoCrossSection(GetGluinoMass(identifier))` when it does; in that
case `FixLumi` has a result exactly when `GetGluinoMass` has one. -/
theorem FixLumi_w_lumi (xs : CrossSections) (corr : corrections_tree) (corr_path : List Char)
    (year : Int) (_hneff : corr.out_neff ≠ 0) :
    (¬ "SMS-TChi".toList <:+: corr_path →
      FixLumi xs corr corr_path year = .ok { corr with
        out_w_lumi :=
          xs.crossSection corr_path (decide (year = 2016)) * 1000 / corr.out_neff }) ∧
    ("SMS-TChi".toList <:+: corr_path → ∀ mglu, GetGluinoMass corr_path = .ok mglu →
      FixLumi xs corr corr_path year = .ok { corr with
        out_w_lumi := (xs.higgsinoCrossSection mglu).1 * 1000 / corr.out_neff }) ∧
    ("SMS-TChi".toList <:+: corr_path → ∀ e, GetGluinoMass corr_path = .error e →
      FixLumi xs corr corr_path year = .error e) :=
  ⟨fun h => FixLumi_plain xs corr corr_path year ((Contains_false_iff _ _).2 h),
    fun h mglu hm =>
      FixLumi_higgsino xs corr corr_path year mglu ((Contains_iff_sublist_at _ _).2 h) hm,
    fun h e hm =>
      FixLumi_no_mass xs corr corr_path year e ((Contains_iff_sublist_at _ _).2 h) hm⟩

theorem FixLumi_w_lumi_witness :
    lumiExample.out_neff ≠ 0 ∧
    (∃ c, FixLumi exampleXs lumiExample "TTJets_SingleLept".toList 2016 = .ok c ∧
      c.out_w_lumi = 500) ∧
    ∃ c, FixLumi exampleXs lumiExample "SMS-TChiHH_mChi-127_mLSP-1".toList 2017 = .ok c ∧
      c.out_w_lumi = 31750 := by
  have hneff : lumiExample.out_neff ≠ 0 := by norm_num [lumiExample]
  have h1 := (FixLumi_w_lumi exampleXs lumiExample "TTJets_SingleLept".toList 2016 hneff).1
    ((Contains_false_iff _ _).1 (by decide))
  have h2 := (FixLumi_w_lumi exampleXs lumiExample "SMS-TChiHH_mChi-127_mLSP-1".toList 2017
    hneff).2.1 ((Contains_iff_sublist_at _ _).1 (by decide)) 127 (by decide)
  refine ⟨hneff, ⟨_, h1, ?_⟩, ⟨_, h2, ?_⟩⟩
  · norm_num [exampleXs, lumiExample]
  · norm_num [exampleXs, lumiExample]

/-- C13 (counterexample): one entry passes the entry-count check, and with `neff = 0` in that
entry the accumulated `neff`, by which `FixLumi` divides, is `0`. -/
theorem aggregate_neff_zero :
    ∃ acc, aggregate freshTree [uniformRecord 0 [1]] = .ok acc ∧ acc.out_neff = 0 := by
  refine ⟨_, aggregate_eq_foldl freshTree (uniformRecord 0 [1]) [] (by simp), ?_⟩
  norm_num [addPure, Initialize, uniformRecord]

/-- C13 (amended): for entries of one shape the accumulated `neff` is the sum of the `neff` of
the entries, and it is positive, hence nonzero, when every entry has a positive `neff`. -/
theorem aggregate_neff_pos (corr : corrections_tree) (r0 : WeightRecord)
    (rs : List WeightRecord) (hshape : ∀ r ∈ rs, SameShape r r0)
    (hpos : ∀ r ∈ r0 :: rs, 0 < r.neff) :
    ∃ acc, aggregate corr (r0 :: rs) = .ok acc ∧
      acc.out_neff = ((r0 :: rs).map (fun r => r.neff)).sum ∧ acc.out_neff ≠ 0 := by
  have hsum : ((r0 :: rs).foldl addPure (Initialize r0 corr)).out_neff =
      ((r0 :: rs).map (fun r => r.neff)).sum := by
    rw [foldl_addPure_scalar (fun c => c.out_neff) (fun r => r.neff) (fun _ _ => rfl)]
    exact zero_add _
  refine ⟨_, aggregate_eq_foldl corr r0 rs hshape, hsum, ?_⟩
  rw [hsum]
  apply ne_of_gt
  apply List.sum_pos
  · intro x hx
    obtain ⟨r, hr, rfl⟩ := List.mem_map.1 hx
    exact hpos r hr
  · simp

theorem aggregate_neff_pos_witness :
    (∀ r ∈ [uniformRecord 2 [3, 4]], SameShape r (uniformRecord 1 [1, 2])) ∧
    (∀ r ∈ [uniformRecord 1 [1, 2], uniformRecord 2 [3, 4]], 0 < r.neff) ∧
    ∃ acc, aggregate freshTree [uniformRecord 1 [1, 2], uniformRecord 2 [3, 4]] = .ok acc ∧
      acc.out_neff = 3 := by
  have h1 : ∀ r ∈ [uniformRecord 2 [3, 4]], SameShape r (uniformRecord 1 [1, 2]) := by
    simp [SameShape, uniformRecord]
  have h2 : ∀ r ∈ [uniformRecord 1 [1, 2], uniformRecord 2 [3, 4]], 0 < r.neff := by
    simp [uniformRecord]
  obtain ⟨acc, hacc, hsum, -⟩ := aggregate_neff_pos freshTree _ _ h1 h2
  refine ⟨h1, h2, acc, hacc, ?_⟩
  rw [hsum]
  norm_num [uniformRecord]

/-- C17: for digits of an integer `v` other than `127` with `v + 12 < 2 ^ 31`, the mass
that `GetGluinoMass` returns is `(v + 12) / 25 * 25`; it is a multiple of `25`, it differs
from `v` by at most `12`, and no multiple of `25` is nearer to `v`. -/
theorem GetGluinoMass_nearest (pre ds rest : List Char) (hne : ds ≠ [])
    (hdig : ∀ c ∈ ds, isdigit c = true) (hrest : rest = [] ∨ ∃ r, rest = '_' :: r)
    (hlast : ¬ "_mChi-".toList <:+: rest)
    (hsize : (pre ++ "_mChi-".toList ++ ds ++ rest).length < 2 ^ 64)
    (hv : digitsValue ds + 12 < 2 ^ 31) (h127 : digitsValue ds ≠ 127) :
    ∃ m : Int, GetGluinoMass (pre ++ "_mChi-".toList ++ ds ++ rest) = .ok m ∧
      m = (((digitsValue ds + 12) / 25 * 25 : Nat) : Int) ∧ (25 : Int) ∣ m ∧
      |m - (digitsValue ds : Int)| ≤ 12 ∧
      ∀ k : Int, (25 : Int) ∣ k → |m - (digitsValue ds : Int)| ≤ |k - (digitsValue ds : Int)| := by
  have hm := GetGluinoMass_digits pre ds rest hne hdig hrest hlast hsize hv
  rw [if_neg h127] at hm
  refine ⟨_, hm, rfl, ?_, ?_, ?_⟩
  · refine ⟨(((digitsValue ds + 12) / 25 : Nat) : Int), ?_⟩
    push_cast
    ring
  · rw [abs_le]
    constructor <;> omega
  · rintro k ⟨j, rfl⟩
    rcases le_total 0 ((((digitsValue ds + 12) / 25 * 25 : Nat) : Int) - (digitsValue ds : Int))
      with ha | ha <;>
    rcases le_total 0 (25 * j - (digitsValue ds : Int)) with hb | hb
    · rw [abs_of_nonneg ha, abs_of_nonneg hb]; omega
    · rw [abs_of_nonneg ha, abs_of_nonpos hb]; omega
    · rw [abs_of_nonpos ha, abs_of_nonneg hb]; omega
    · rw [abs_of_nonpos ha, abs_of_nonpos hb]; omega

theorem GetGluinoMass_nearest_witness :
    ∃ m : Int, GetGluinoMass "SMS-TChiHH_mChi-113_mLSP-1".toList = .ok m ∧ m = 125 ∧
      (25 : Int) ∣ m ∧ |m - 113| ≤ 12 := by
  obtain ⟨m, hm, hval, hdvd, hnear, -⟩ := GetGluinoMass_nearest "SMS-TChiHH".toList
    "113".toList "_mLSP-1".toList (by decide) (by decide) (Or.inr ⟨_, rfl⟩)
    ((Contains_false_iff _ _).1 (by decide)) (by decide) (by decide) (by decide)
  have hd : digitsValue "113".toList = 113 := by decide
  rw [hd] at hval hnear
  exact ⟨m, hm, by rw [hval]; rfl, hdvd, by simpa using hnear⟩

/-! ## More on `FixISR` -/

theorem deriveSysIsr_ok_bound (nent : ℚ) (v : List ℚ) : ∀ (idxs : List Nat) (w s : List ℚ),
    deriveSysIsr nent v idxs w = .ok s → (∀ i ∈ idxs, i < w.length) ∧ s.length = w.length
  | [], w, s, h => by
    simp only [deriveSysIsr, Except.ok.injEq] at h
    subst h
    exact ⟨fun i hi => absurd hi (List.not_mem_nil i), rfl⟩
  | i :: rest, w, s, h => by
    by_cases hi : i < w.length
    · simp only [deriveSysIsr, writeIdx, if_pos hi] at h
      obtain ⟨hb, hl⟩ := deriveSysIsr_ok_bound nent v rest _ s h
      simp only [List.length_set] at hb hl
      refine ⟨fun j hj => ?_, hl⟩
      rcases List.mem_cons.1 hj with rfl | hj
      · exact hi
      · exact hb j hj
    · simp only [deriveSysIsr, writeIdx, if_neg hi] at h
      exact Except.noConfusion h

theorem copySysIsr_ok_bound (w : List ℚ) : ∀ (idxs : List Nat) (v s : List ℚ),
    copySysIsr w idxs v = .ok s → (∀ i ∈ idxs, i < w.length) ∧ s.length = v.length
  | [], v, s, h => by
    simp only [copySysIsr, Except.ok.injEq] at h
    subst h
    exact ⟨fun i hi => absurd hi (List.not_mem_nil i), rfl⟩
  | i :: rest, v, s, h => by
    by_cases hi : i < w.length
    · have hr : readIdx w i = .ok (w.get ⟨i, hi⟩) := by
        simp [readIdx, List.getElem?_eq_getElem hi]
      simp only [copySysIsr, hr] at h
      obtain ⟨hb, hl⟩ := copySysIsr_ok_bound w rest _ s h
      simp only [List.length_set] at hl
      refine ⟨fun j hj => ?_, hl⟩
      rcases List.mem_cons.1 hj with rfl | hj
      · exact hi
      · exact hb j hj
    · have hr : readIdx w i = .error .index_past_end := by
        simp [readIdx, List.getElem?_eq_none (not_lt.1 hi)]
      simp only [copySysIsr, hr] at h
      exact Except.noConfusion h

theorem isrCorrection_ok_length (corr : corrections_tree) (corr_path : List Char) (W : ℚ)
    (S : List ℚ) (h : isrCorrection corr corr_path = .ok (W, S)) : S.length = 2 := by
  unfold isrCorrection at h
  split at h
  · split at h
    · cases h; rfl
    · cases h; rfl
  · split at h
    · rename_i v hv
      cases h
      exact (deriveSysIsr_ok_bound _ _ _ _ _ hv).2
    · exact Except.noConfusion h

theorem FixISR_ok_inv (corr : corrections_tree) (corr_path : List Char) (year : Int)
    (c : corrections_tree) (h : FixISR corr corr_path year = .ok c) :
    ∃ S, isrCorrection corr corr_path = .ok (c.out_w_isr, S) ∧
      copySysIsr S (List.range corr.out_sys_isr.length) corr.out_sys_isr = .ok c.out_sys_isr := by
  unfold FixISR at h
  split at h
  · exact Except.noConfusion h
  · rename_i W S hi
    split at h
    · exact Except.noConfusion h
    · rename_i sys hs
      cases h
      exact ⟨S, hi, hs⟩

theorem FixISR_ok_short (corr : corrections_tree) (corr_path : List Char) (year : Int)
    (c : corrections_tree) (h : FixISR corr corr_path year = .ok c) :
    corr.out_sys_isr.length ≤ 2 ∧ c.out_sys_isr.length = corr.out_sys_isr.length := by
  obtain ⟨S, hi, hs⟩ := FixISR_ok_inv corr corr_path year c h
  have hS := isrCorrection_ok_length corr corr_path _ S hi
  obtain ⟨hb, hl⟩ := copySysIsr_ok_bound S _ _ _ hs
  refine ⟨?_, hl⟩
  by_contra hlt
  have h2 := hb 2 (List.mem_range.2 (by omega))
  omega

theorem FixISR_ok_w_isr_derived (corr : corrections_tree) (corr_path : List Char) (year : Int)
    (c : corrections_tree) (h1 : ¬ "TTJets_HT".toList <:+: corr_path)
    (h2 : ¬ "genMET-150".toList <:+: corr_path) (h : FixISR corr corr_path year = .ok c) :
    c.out_w_isr = (if corr.out_w_isr = 0 then 1 else corr.out_nent / corr.out_w_isr) ∧
    c.out_sys_isr = corr.out_sys_isr.map (fun x => if x = 0 then 1 else corr.out_nent / x) := by
  obtain ⟨c', hc', hw, hs⟩ := FixISR_derived corr corr_path year h1 h2
    (FixISR_ok_short corr corr_path year c h).1
  rw [h] at hc'
  cases hc'
  exact ⟨hw, hs⟩

/-- C20: for an identifier of neither inclusive family and a nonzero `w_isr` sum, `FixISR`
returns for year 2016 and for any other year whenever `sys_isr` has at most two elements, and
the weights it writes for the two years are equal, both `nent / (tot_weight_l0 * w_corr_l0 +
tot_weight_l1)`. -/
theorem FixISR_year_independent (corr : corrections_tree) (corr_path : List Char) (year : Int)
    (h1 : ¬ "TTJets_HT".toList <:+: corr_path) (h2 : ¬ "genMET-150".toList <:+: corr_path)
    (hw : corr.out_w_isr ≠ 0) :
    (corr.out_sys_isr.length ≤ 2 →
      ∃ c16 cy, FixISR corr corr_path 2016 = .ok c16 ∧ FixISR corr corr_path year = .ok cy) ∧
    ∀ c16 cy, FixISR corr corr_path 2016 = .ok c16 → FixISR corr corr_path year = .ok cy →
      c16.out_weight = cy.out_weight ∧
      cy.out_weight = corr.out_nent /
        (corr.out_tot_weight_l0 * w_corr_l0 corr + corr.out_tot_weight_l1) := by
  have key : ∀ (y : Int) (c : corrections_tree), FixISR corr corr_path y = .ok c →
      c.out_weight = corr.out_nent /
        (corr.out_tot_weight_l0 * w_corr_l0 corr + corr.out_tot_weight_l1) := by
    intro y c hc
    rw [FixISR_ok_weight corr corr_path y c hc,
      (FixISR_ok_w_isr_derived corr corr_path y c h1 h2 hc).1, if_neg hw,
      mul_div_cancel₀ _ hw]
    split <;> rfl
  refine ⟨fun hlen => ?_, fun c16 cy h16 hy => ⟨?_, key year cy hy⟩⟩
  · obtain ⟨W, w0, w1, he⟩ := isrCorrection_short corr corr_path hlen
    exact ⟨_, _, FixISR_of_isrCorrection corr corr_path 2016 W w0 w1 he hlen,
      FixISR_of_isrCorrection corr corr_path year W w0 w1 he hlen⟩
  · rw [key 2016 c16 h16, key year cy hy]

theorem FixISR_year_independent_witness :
    ∃ c16 c18, FixISR isrExample "TTJets_SingleLept".toList 2016 = .ok c16 ∧
      FixISR isrExample "TTJets_SingleLept".toList 2018 = .ok c18 ∧
      c16.out_weight = c18.out_weight ∧ c18.out_weight = 200 / 15 := by
  have h := FixISR_year_independent isrExample "TTJets_SingleLept".toList 2018
    ((Contains_false_iff _ _).1 (by decide)) ((Contains_false_iff _ _).1 (by decide))
    (by norm_num [isrExample])
  obtain ⟨c16, c18, h16, h18⟩ := h.1 (by simp [isrExample])
  obtain ⟨he, hv⟩ := h.2 c16 c18 h16 h18
  refine ⟨c16, c18, h16, h18, he, ?_⟩
  rw [hv, w_corr_l0_eq]
  norm_num [isrExample, freshTree]

theorem FixISR_short_ok (corr : corrections_tree) (corr_path : List Char) (year : Int)
    (hlen : corr.out_sys_isr.length ≤ 2) : ∃ c, FixISR corr corr_path year = .ok c := by
  obtain ⟨W, w0, w1, he⟩ := isrCorrection_short corr corr_path hlen
  exact ⟨_, FixISR_of_isrCorrection corr corr_path year W w0 w1 he hlen⟩

/-- C15 (counterexample): with one element in `sys_isr`, `FixISR` does not fail; it returns
with only the first value of the correction pair written. -/
theorem FixISR_one_element :
    isrOne.out_sys_isr.length ≠ 2 ∧
    ∃ c, FixISR isrOne "TTJets_HT-600to800".toList 2018 = .ok c ∧
      c.out_sys_isr = [1 / 1.067] := by
  refine ⟨by simp [isrOne], ?_⟩
  have hi := isrCorrection_inclusive isrOne "TTJets_HT-600to800".toList (by decide)
  rw [if_neg (by decide)] at hi
  exact ⟨_, FixISR_of_isrCorrection isrOne "TTJets_HT-600to800".toList 2018 _ _ _ hi
    (by simp [isrOne, isrExample]), by simp [isrOne, isrExample]⟩

/-- C15 (amended): with fewer than two elements in `sys_isr`, `FixISR` returns an accumulator;
its `sys_isr` has the length it had and holds the first elements of the correction pair. -/
theorem FixISR_fewer_elements (corr : corrections_tree) (corr_path : List Char) (year : Int)
    (hlen : corr.out_sys_isr.length < 2) :
    ∃ c W w0 w1, FixISR corr corr_path year = .ok c ∧
      isrCorrection corr corr_path = .ok (W, [w0, w1]) ∧ c.out_w_isr = W ∧
      c.out_sys_isr = [w0, w1].take corr.out_sys_isr.length ∧
      c.out_sys_isr.length = corr.out_sys_isr.length := by
  obtain ⟨W, w0, w1, he⟩ := isrCorrection_short corr corr_path (le_of_lt hlen)
  have hc := FixISR_of_isrCorrection corr corr_path year W w0 w1 he (le_of_lt hlen)
  exact ⟨_, W, w0, w1, hc, he, rfl, rfl, (FixISR_ok_short _ _ _ _ hc).2⟩

theorem FixISR_fewer_elements_witness :
    isrOne.out_sys_isr.length < 2 ∧
    ∃ c, FixISR isrOne "TTJets_HT-600to800".toList 2018 = .ok c ∧
      c.out_sys_isr.length = 1 := by
  have hlen : isrOne.out_sys_isr.length < 2 := by simp [isrOne]
  obtain ⟨c, -, -, -, hc, -, -, -, hl⟩ :=
    FixISR_fewer_elements isrOne "TTJets_HT-600to800".toList 2018 hlen
  exact ⟨hlen, c, hc, hl.trans (by simp [isrOne])⟩

/-- C18: `FixISR` and `Fix0L` do not commute. On `orderExample` (nonzero `w_lep` sum and
`nent_zlep`) the order `FixISR`, `Fix0L` ends with the weight `5/6`, and the order `Fix0L`,
`FixISR` with the weight `20/21`. -/
theorem FixISR_Fix0L_order :
    orderExample.out_w_lep ≠ 0 ∧ orderExample.out_nent_zlep ≠ 0 ∧
    ∃ a b, FixISR orderExample "TTJets_SingleLept".toList 2018 = .ok a ∧
      FixISR (Fix0L orderExample) "TTJets_SingleLept".toList 2018 = .ok b ∧
      (Fix0L a).out_weight = 5 / 6 ∧ b.out_weight = 20 / 21 ∧
      (Fix0L a).out_weight ≠ b.out_weight := by
  obtain ⟨a, ha⟩ := FixISR_short_ok orderExample "TTJets_SingleLept".toList 2018
    (by simp [orderExample, freshTree])
  obtain ⟨b, hb⟩ := FixISR_short_ok (Fix0L orderExample) "TTJets_SingleLept".toList 2018
    (by simp [Fix0L, orderExample, freshTree])
  have wa : (Fix0L a).out_weight = 5 / 6 := by
    have h := FixISR_ok_weight _ _ _ _ ha
    rw [w_corr_l0_eq] at h
    norm_num [orderExample, freshTree] at h
    exact h
  have wb : b.out_weight = 20 / 21 := by
    have h := FixISR_ok_weight _ _ _ _ hb
    rw [w_corr_l0_eq] at h
    norm_num [Fix0L, fix0L, orderExample, freshTree] at h
    exact h
  refine ⟨by norm_num [orderExample], by norm_num [orderExample], a, b, ha, hb, wa, wb, ?_⟩
  rw [wa, wb]
  norm_num

/-! ## The pipeline and `main` -/

theorem corrections_ok_inv (xs : CrossSections) (corr : corrections_tree)
    (output_path : List Char) (year : Int) (c : corrections_tree)
    (h : corrections xs corr output_path year = .ok c) :
    ∃ c1 c2, FixLumi xs corr output_path year = .ok c1 ∧ FixISR c1 output_path year = .ok c2 ∧
      c = Normalize_corr (Fix0L c2) := by
  unfold corrections at h
  split at h
  · exact Except.noConfusion h
  · rename_i c1 h1
    split at h
    · exact Except.noConfusion h
    · rename_i c2 h2
      cases h
      exact ⟨c1, c2, h1, h2, rfl⟩

theorem corrections_ok (xs : CrossSections) (corr : corrections_tree)
    (output_path : List Char) (year : Int)
    (hsms : Contains output_path "SMS-TChi".toList = false)
    (hlen : corr.out_sys_isr.length ≤ 2) :
    ∃ c, corrections xs corr output_path year = .ok c := by
  have h1 := FixLumi_plain xs corr output_path year hsms
  obtain ⟨c2, h2⟩ := FixISR_short_ok { corr with
    out_w_lumi := xs.crossSection output_path (decide (year = 2016)) * 1000 / corr.out_neff }
    output_path year hlen
  exact ⟨Normalize_corr (Fix0L c2), by simp only [corrections, h1, h2]⟩

theorem corrections_ok_fields (xs : CrossSections) (corr : corrections_tree)
    (output_path : List Char) (year : Int) (c : corrections_tree)
    (h : corrections xs corr output_path year = .ok c) :
    c.out_w_btag = Normalize corr.out_w_btag corr.out_nent ∧ c.out_nent = corr.out_nent ∧
      c.out_sys_isr.length = corr.out_sys_isr.length := by
  obtain ⟨c1, c2, h1, h2, rfl⟩ := corrections_ok_inv xs corr output_path year c h
  have f1 := FixLumi_ok_frame xs corr output_path year c1 h1
  have f2 := FixISR_ok_frame c1 output_path year c2 h2
  have b2 : c2.out_w_btag = c1.out_w_btag := by
    have e := congrArg corrections_tree.out_w_btag f2; exact e
  have b1 : c1.out_w_btag = corr.out_w_btag := by
    have e := congrArg corrections_tree.out_w_btag f1; exact e
  have n2 : c2.out_nent = c1.out_nent := by
    have e := congrArg corrections_tree.out_nent f2; exact e
  have n1 : c1.out_nent = corr.out_nent := by
    have e := congrArg corrections_tree.out_nent f1; exact e
  have s1 : c1.out_sys_isr = corr.out_sys_isr := by
    have e := congrArg corrections_tree.out_sys_isr f1; exact e
  refine ⟨?_, n2.trans n1, ?_⟩
  · show Normalize c2.out_w_btag c2.out_nent = _
    rw [b2, b1, n2, n1]
  · show c2.out_sys_isr.length = _
    rw [(FixISR_ok_short c1 output_path year c2 h2).2, s1]

/-- C19: the pipeline is not idempotent. On `idemExample` (`neff = 1`, `nent = 4`, a `w_btag`
sum of `1`) a first pass returns an accumulator with `w_btag = 4`, and a second pass on that
result returns a different accumulator, with `w_btag = 1`. -/
theorem corrections_not_idempotent (xs : CrossSections) :
    idemExample.out_neff ≠ 0 ∧
    ∃ c1 c2, corrections xs idemExample "TTJets_SingleLept".toList 2018 = .ok c1 ∧
      corrections xs c1 "TTJets_SingleLept".toList 2018 = .ok c2 ∧
      c1.out_w_btag = 4 ∧ c2.out_w_btag = 1 ∧ c2 ≠ c1 := by
  obtain ⟨c1, h1⟩ := corrections_ok xs idemExample "TTJets_SingleLept".toList 2018 (by decide)
    (by simp [idemExample, freshTree])
  obtain ⟨b1, n1, l1⟩ := corrections_ok_fields xs _ _ _ c1 h1
  obtain ⟨c2, h2⟩ := corrections_ok xs c1 "TTJets_SingleLept".toList 2018 (by decide)
    (by rw [l1]; simp [idemExample, freshTree])
  obtain ⟨b2, -, -⟩ := corrections_ok_fields xs _ _ _ c2 h2
  have v1 : c1.out_w_btag = 4 := by
    rw [b1]; norm_num [Normalize, idemExample]
  have v2 : c2.out_w_btag = 1 := by
    rw [b2, v1, n1]; norm_num [Normalize, idemExample]
  refine ⟨by norm_num [idemExample], c1, c2, h1, h2, v1, v2, fun he => ?_⟩
  rw [he, v1] at v2
  norm_num at v2

theorem main_eq (xs : CrossSections) (readTree : List Char → List WeightRecord)
    (corr : corrections_tree) (output_path first_input : List Char)
    (more_inputs : List (List Char)) :
    main xs readTree corr (output_path :: first_input :: more_inputs) =
      match aggregate corr ((first_input :: more_inputs).flatMap readTree) with
      | .error e => .error e
      | .ok sums => corrections xs sums output_path (main_year first_input) := rfl

theorem FixLumi_ok_higgsino (xs : CrossSections) (corr : corrections_tree)
    (corr_path : List Char) (year : Int) (c : corrections_tree)
    (hsms : Contains corr_path "SMS-TChi".toList = true)
    (h : FixLumi xs corr corr_path year = .ok c) :
    ∃ mglu, GetGluinoMass corr_path = .ok mglu ∧
      c.out_w_lumi = (xs.higgsinoCrossSection mglu).1 * 1000 / corr.out_neff := by
  cases hm : GetGluinoMass corr_path with
  | error e =>
    rw [FixLumi_no_mass xs corr corr_path year e hsms hm] at h
    exact Except.noConfusion h
  | ok mglu =>
    rw [FixLumi_higgsino xs corr corr_path year mglu hsms hm] at h
    cases h
    exact ⟨mglu, rfl, rfl⟩

theorem FixISR_ok_w_isr_inclusive (corr : corrections_tree) (corr_path : List Char)
    (year : Int) (c : corrections_tree)
    (hfam : "TTJets_HT".toList <:+: corr_path ∨ "genMET-150".toList <:+: corr_path)
    (h : FixISR corr corr_path year = .ok c) :
    ("TTJets_DiLept".toList <:+: corr_path → c.out_w_isr = 1 / 0.997) ∧
    (¬ "TTJets_DiLept".toList <:+: corr_path → c.out_w_isr = 1 / 1.017) := by
  have hb : (Contains corr_path "TTJets_HT".toList || Contains corr_path "genMET-150".toList)
      = true := by
    rcases hfam with h | h
    · rw [(Contains_iff_sublist_at _ _).2 h]; rfl
    · rw [(Contains_iff_sublist_at _ _).2 h, Bool.or_true]
  obtain ⟨S, hi, -⟩ := FixISR_ok_inv corr corr_path year c h
  rw [isrCorrection_inclusive corr corr_path hb] at hi
  constructor
  · intro hd
    rw [if_pos ((Contains_iff_sublist_at _ _).2 hd)] at hi
    have e := congrArg (fun r : Except Fault (ℚ × List ℚ) =>
      match r with
      | .ok x => x.1
      | .error _ => 0) hi
    exact e.symm
  · intro hd
    have hn : ¬ Contains corr_path "TTJets_DiLept".toList = true := by
      rw [(Contains_false_iff _ _).2 hd]; exact Bool.false_ne_true
    rw [if_neg hn] at hi
    have e := congrArg (fun r : Except Fault (ℚ × List ℚ) =>
      match r with
      | .ok x => x.1
      | .error _ => 0) hi
    exact e.symm

theorem main_ok_inv (xs : CrossSections) (readTree : List Char → List WeightRecord)
    (corr : corrections_tree) (output_path first_input : List Char)
    (more_inputs : List (List Char)) (row : corrections_tree)
    (h : main xs readTree corr (output_path :: first_input :: more_inputs) = .ok row) :
    ∃ sums c1 c2, aggregate corr ((first_input :: more_inputs).flatMap readTree) = .ok sums ∧
      FixLumi xs sums output_path (main_year first_input) = .ok c1 ∧
      FixISR c1 output_path (main_year first_input) = .ok c2 ∧
      row = Normalize_corr (Fix0L c2) ∧ c1.out_neff = sums.out_neff := by
  rw [main_eq] at h
  split at h
  · exact Except.noConfusion h
  · rename_i sums hs
    obtain ⟨c1, c2, h1, h2, hr⟩ := corrections_ok_inv xs sums output_path _ row h
    exact ⟨sums, c1, c2, hs, h1, h2, hr, by
      have e := congrArg corrections_tree.out_neff (FixLumi_ok_frame xs sums _ _ c1 h1)
      exact e⟩

/-- C16 (counterexample): two runs with the same input file and the output paths `out.root`
and `TTJets_HT.root` write different rows: `w_isr` is `1` in the first and `1/1.017` in the
second. -/
theorem main_depends_on_output_path :
    ∃ a b, main exampleXs exampleReadTree freshTree ["out.root".toList, "in.root".toList]
        = .ok a ∧
      main exampleXs exampleReadTree freshTree ["TTJets_HT.root".toList, "in.root".toList]
        = .ok b ∧
      a.out_w_isr = 1 ∧ b.out_w_isr = 1 / 1.017 ∧ a ≠ b := by
  have hagg : aggregate freshTree (["in.root".toList].flatMap exampleReadTree) =
      .ok ([uniformRecord 1 [1, 1]].foldl addPure (Initialize (uniformRecord 1 [1, 1]) freshTree)) :=
    aggregate_eq_foldl freshTree (uniformRecord 1 [1, 1]) [] (by simp)
  have hlen : ([uniformRecord 1 [1, 1]].foldl addPure
      (Initialize (uniformRecord 1 [1, 1]) freshTree)).out_sys_isr.length ≤ 2 := by
    simp [addPure, Initialize, CopySize, uniformRecord]
  have hw : ([uniformRecord 1 [1, 1]].foldl addPure
      (Initialize (uniformRecord 1 [1, 1]) freshTree)).out_w_isr = 1 := by
    norm_num [addPure, Initialize, uniformRecord]
  have hn : ([uniformRecord 1 [1, 1]].foldl addPure
      (Initialize (uniformRecord 1 [1, 1]) freshTree)).out_nent = 1 := by
    norm_num [addPure, Initialize, uniformRecord]
  obtain ⟨a, ha⟩ := corrections_ok exampleXs _ "out.root".toList (main_year "in.root".toList)
    (by decide) hlen
  obtain ⟨b, hb⟩ := corrections_ok exampleXs _ "TTJets_HT.root".toList
    (main_year "in.root".toList) (by decide) hlen
  have hma : main exampleXs exampleReadTree freshTree ["out.root".toList, "in.root".toList]
      = .ok a := by rw [main_eq, hagg]; exact ha
  have hmb : main exampleXs exampleReadTree freshTree
      ["TTJets_HT.root".toList, "in.root".toList] = .ok b := by rw [main_eq, hagg]; exact hb
  have va : a.out_w_isr = 1 := by
    obtain ⟨c1, c2, h1, h2, rfl⟩ := corrections_ok_inv _ _ _ _ a ha
    have f1 := FixLumi_ok_frame _ _ _ _ c1 h1
    have e1 : c1.out_w_isr = 1 := by
      have e := congrArg corrections_tree.out_w_isr f1; exact e.trans hw
    have e2 : c1.out_nent = 1 := by
      have e := congrArg corrections_tree.out_nent f1; exact e.trans hn
    have h := (FixISR_ok_w_isr_derived c1 _ _ c2 ((Contains_false_iff _ _).1 (by decide))
      ((Contains_false_iff _ _).1 (by decide)) h2).1
    rw [e1, e2] at h
    show c2.out_w_isr = 1
    rw [h]; norm_num
  have vb : b.out_w_isr = 1 / 1.017 := by
    obtain ⟨c1, c2, h1, h2, rfl⟩ := corrections_ok_inv _ _ _ _ b hb
    exact (FixISR_ok_w_isr_inclusive c1 _ _ c2
      (Or.inl ((Contains_iff_sublist_at _ _).1 (by decide))) h2).2
      ((Contains_false_iff _ _).1 (by decide))
  refine ⟨a, b, hma, hmb, va, vb, fun he => ?_⟩
  rw [he, vb] at va
  norm_num at va

/-- C16 (amended): the year given to the stages is derived from the first input path, the
sample family and the mass from the output path. The row is the pipeline applied to the sums
with the output path and the year of the first input path; runs with the same output path, the
same entries and the same year write the same row whatever the input paths are; the mass given
to the higgsino lookup is `GetGluinoMass` of the output path; and the markers of `FixISR` are
tested on the output path. -/
theorem main_sample_from_output_path (xs : CrossSections)
    (readTree : List Char → List WeightRecord) (corr : corrections_tree)
    (output_path first_input : List Char) (more_inputs : List (List Char)) :
    (main xs readTree corr (output_path :: first_input :: more_inputs) =
      match aggregate corr ((first_input :: more_inputs).flatMap readTree) with
      | .error e => .error e
      | .ok sums => corrections xs sums output_path (main_year first_input)) ∧
    (∀ first_input2 more_inputs2,
      (first_input :: more_inputs).flatMap readTree =
        (first_input2 :: more_inputs2).flatMap readTree →
      main_year first_input = main_year first_input2 →
      main xs readTree corr (output_path :: first_input :: more_inputs) =
        main xs readTree corr (output_path :: first_input2 :: more_inputs2)) ∧
    (∀ sums row, aggregate corr ((first_input :: more_inputs).flatMap readTree) = .ok sums →
      main xs readTree corr (output_path :: first_input :: more_inputs) = .ok row →
      "SMS-TChi".toList <:+: output_path →
      ∃ mglu, GetGluinoMass output_path = .ok mglu ∧
        row.out_w_lumi = (xs.higgsinoCrossSection mglu).1 * 1000 / sums.out_neff) ∧
    (∀ row, main xs readTree corr (output_path :: first_input :: more_inputs) = .ok row →
      "TTJets_HT".toList <:+: output_path ∨ "genMET-150".toList <:+: output_path →
      ("TTJets_DiLept".toList <:+: output_path → row.out_w_isr = 1 / 0.997) ∧
      (¬ "TTJets_DiLept".toList <:+: output_path → row.out_w_isr = 1 / 1.017)) := by
  refine ⟨rfl, fun p q he hy => ?_, fun sums row hs hr hsms => ?_, fun row hr hfam => ?_⟩
  · rw [main_eq, main_eq, he, hy]
  · obtain ⟨sums2, c1, c2, hs2, h1, h2, rfl, -⟩ := main_ok_inv xs readTree corr _ _ _ row hr
    rw [hs] at hs2
    cases hs2
    obtain ⟨mglu, hm, hl⟩ := FixLumi_ok_higgsino xs sums output_path _ c1
      ((Contains_iff_sublist_at _ _).2 hsms) h1
    refine ⟨mglu, hm, ?_⟩
    have e : c2.out_w_lumi = c1.out_w_lumi := by
      have e := congrArg corrections_tree.out_w_lumi (FixISR_ok_frame c1 _ _ c2 h2); exact e
    show c2.out_w_lumi = _
    rw [e, hl]
  · obtain ⟨sums2, c1, c2, -, -, h2, rfl, -⟩ := main_ok_inv xs readTree corr _ _ _ row hr
    exact FixISR_ok_w_isr_inclusive c1 output_path _ c2 hfam h2

theorem main_sample_from_output_path_witness :
    ["a.root".toList].flatMap exampleReadTree = ["b.root".toList].flatMap exampleReadTree ∧
    main_year "a.root".toList = main_year "b.root".toList ∧
    main exampleXs exampleReadTree freshTree ["out.root".toList, "a.root".toList] =
      main exampleXs exampleReadTree freshTree ["out.root".toList, "b.root".toList] :=
  ⟨rfl, by decide,
    (main_sample_from_output_path exampleXs exampleReadTree freshTree "out.root".toList
      "a.root".toList []).2.1 "b.root".toList [] rfl (by decide)⟩

/-! ## Guards of the divisions -/

theorem Normalize_vector_guard (v : List ℚ) (nent : ℚ) :
    ZeroGivesOneVec v (Normalize_vector v nent) := by
  obtain ⟨hl, hv⟩ := Normalize_vector_spec v nent
  exact ⟨hl, fun i hi h0 => by rw [hv i hi, if_pos h0]⟩

theorem Normalize_guard (x nent : ℚ) : ZeroGivesOne x (Normalize x nent) := by
  intro h
  rw [Normalize_eq, if_pos h]

/-- C14 (counterexample): on `zlepExample` (`nent_zlep = 0`, total weights `0`) `Fix0L` sets
`w_lep` to the quotient by `nent_zlep`, not to `1`, and `FixISR` sets the weight to the
quotient by `tot_weight_l0 * w_corr_l0 + tot_weight_l1 = 0`, not to `1`. -/
theorem unguarded_divisions :
    zlepExample.out_nent_zlep = 0 ∧
    (Fix0L zlepExample).out_w_lep =
      (zlepExample.out_nent - zlepExample.out_w_lep) / zlepExample.out_nent_zlep ∧
    (Fix0L zlepExample).out_w_lep ≠ 1 ∧
    zlepExample.out_tot_weight_l0 * w_corr_l0 zlepExample + zlepExample.out_tot_weight_l1 = 0 ∧
    ∃ c, FixISR zlepExample "TTJets_SingleLept".toList 2018 = .ok c ∧
      c.out_weight = zlepExample.out_nent /
        (zlepExample.out_tot_weight_l0 * w_corr_l0 zlepExample +
          zlepExample.out_tot_weight_l1) ∧
      c.out_weight ≠ 1 := by
  have hD : zlepExample.out_tot_weight_l0 * w_corr_l0 zlepExample +
      zlepExample.out_tot_weight_l1 = 0 := by
    norm_num [zlepExample, freshTree]
  have hq : (Fix0L zlepExample).out_w_lep =
      (zlepExample.out_nent - zlepExample.out_w_lep) / zlepExample.out_nent_zlep := by
    show fix0L zlepExample.out_nent zlepExample.out_nent_zlep zlepExample.out_w_lep = _
    rw [fix0L_eq, if_neg (by norm_num [zlepExample])]
  obtain ⟨c, hc⟩ := FixISR_short_ok zlepExample "TTJets_SingleLept".toList 2018
    (by simp [zlepExample, freshTree])
  have hw := FixISR_ok_weight _ _ _ _ hc
  rw [if_neg (by decide)] at hw
  refine ⟨rfl, hq, ?_, hD, c, hc, hw, ?_⟩
  · rw [hq]; norm_num [zlepExample, freshTree]
  · rw [hw, hD]; norm_num

/-- C14 (amended): the quotients `nent / x` of `Normalize` and the quotients `nent / w_isr` and
`nent / sys_isr[i]` of `FixISR` are guarded on their divisor (a divisor `0` gives the field
`1`), and `w_corr_l0` is `1` when `nent_zlep = 0`. The quotients of `Fix0L` are taken whenever
the field's own value is nonzero, whatever `nent_zlep` is, and the weight of `FixISR` is the
quotient by `tot_weight_l0 * w_corr_l0 + tot_weight_l1` whatever that sum is. -/
theorem guarded_divisions (corr : corrections_tree) :
    (ZeroGivesOne corr.out_w_btag (Normalize_corr corr).out_w_btag ∧
      ZeroGivesOne corr.out_w_btag_df (Normalize_corr corr).out_w_btag_df ∧
      ZeroGivesOne corr.out_w_bhig (Normalize_corr corr).out_w_bhig ∧
      ZeroGivesOne corr.out_w_bhig_df (Normalize_corr corr).out_w_bhig_df ∧
      ZeroGivesOne corr.out_w_pu (Normalize_corr corr).out_w_pu ∧
      ZeroGivesOneVec corr.out_sys_bchig (Normalize_corr corr).out_sys_bchig ∧
      ZeroGivesOneVec corr.out_sys_udsghig (Normalize_corr corr).out_sys_udsghig ∧
      ZeroGivesOneVec corr.out_sys_fs_bchig (Normalize_corr corr).out_sys_fs_bchig ∧
      ZeroGivesOneVec corr.out_sys_fs_udsghig (Normalize_corr corr).out_sys_fs_udsghig ∧
      ZeroGivesOneVec corr.out_sys_pu (Normalize_corr corr).out_sys_pu) ∧
    (∀ corr_path year c, ¬ "TTJets_HT".toList <:+: corr_path →
      ¬ "genMET-150".toList <:+: corr_path → FixISR corr corr_path year = .ok c →
      ZeroGivesOne corr.out_w_isr c.out_w_isr ∧
      ZeroGivesOneVec corr.out_sys_isr c.out_sys_isr) ∧
    (corr.out_nent_zlep = 0 → w_corr_l0 corr = 1) ∧
    (corr.out_w_lep ≠ 0 → (Fix0L corr).out_w_lep =
      (corr.out_nent - corr.out_w_lep) / corr.out_nent_zlep) ∧
    (corr.out_w_fs_lep ≠ 0 → (Fix0L corr).out_w_fs_lep =
      (corr.out_nent - corr.out_w_fs_lep) / corr.out_nent_zlep) ∧
    (∀ corr_path year c, FixISR corr corr_path year = .ok c →
      c.out_weight = (if year = 2016 then corr.out_w_isr * c.out_w_isr else corr.out_nent) /
        (corr.out_tot_weight_l0 * w_corr_l0 corr + corr.out_tot_weight_l1)) := by
  refine ⟨⟨Normalize_guard _ _, Normalize_guard _ _, Normalize_guard _ _, Normalize_guard _ _,
    Normalize_guard _ _, Normalize_vector_guard _ _, Normalize_vector_guard _ _,
    Normalize_vector_guard _ _, Normalize_vector_guard _ _, Normalize_vector_guard _ _⟩,
    fun p y c h1 h2 hc => ?_, fun hz => ?_, fun h => ?_, fun h => ?_,
    fun p y c hc => FixISR_ok_weight corr p y c hc⟩
  · obtain ⟨hw, hs⟩ := FixISR_ok_w_isr_derived corr p y c h1 h2 hc
    refine ⟨fun h0 => by rw [hw, if_pos h0], ?_, fun i hi h0 => ?_⟩
    · rw [hs, List.length_map]
    · rw [hs, getD_map_lt _ _ i hi, if_pos h0]
  · rw [w_corr_l0_eq, if_pos hz]
  · show fix0L corr.out_nent corr.out_nent_zlep corr.out_w_lep = _
    rw [fix0L_eq, if_neg h]
  · show fix0L corr.out_nent corr.out_nent_zlep corr.out_w_fs_lep = _
    rw [fix0L_eq, if_neg h]

theorem guarded_divisions_witness :
    (Normalize_corr stageExample).out_w_btag_df = 1 ∧
    (Normalize_corr stageExample).out_sys_fs_bchig.getD 0 0 = 1 ∧
    w_corr_l0 zlepExample = 1 ∧
    (Fix0L zlepExample).out_w_lep =
      (zlepExample.out_nent - zlepExample.out_w_lep) / zlepExample.out_nent_zlep :=
  ⟨(guarded_divisions stageExample).1.2.1 rfl,
    (guarded_divisions stageExample).1.2.2.2.2.2.2.2.1.2 0 (by decide) rfl,
    (guarded_divisions zlepExample).2.2.1 rfl,
    (guarded_divisions zlepExample).2.2.2.1 (by norm_num [zlepExample])⟩

end MergeCorrections
